import Mathlib

/-!
# Device scale resolution on desktop Unix (`internal/devicescale/impl_unix.go`)

A shallow embedding of the Go package `devicescale` (Unix implementation) and
theorems about it, followed by the state machine of the mascot example
(`examples/mascot/main.go`) and its invariant.

Conventions of the embedding.

* A Go function that can panic returns a `Result α`: a value or a panic.
* The host (environment variable, child process, user database, file system)
  is an explicit value `Host`; every source function that touches the host
  takes it as its first argument.
* `float64` is the type `F64`: NaN, the two infinities, negative zero and the
  finite values (carried as rationals).  Comparisons follow IEEE 754.
* Go strings are Lean `String`s (sequences of Unicode characters; the pattern
  and the tokens the source looks for are ASCII).  The standard-library
  functions the source calls (`strings.Split`, `regexp`, `strconv.Atoi`, the
  `int → float64` conversion) are embedded from their documented behaviour.
* What a process keeps from one call to the next is an explicit `ProcState`;
  `impl` is the call as a function of what it observes, `implS` the call in a
  process state.
* Every host operation returns: a child process that never exits is outside
  the model.
-/

namespace Devicescale

/-! ## float64 -/

/-- The values of a Go `float64`. Finite non-zero values and positive zero are
`fin q`; negative zero is a value of its own. -/
inductive F64 where
  | nan
  | negInf
  | posInf
  | negZero
  | fin (q : ℚ)
deriving DecidableEq

namespace F64

/-- Go `a == b` on float64 (IEEE: NaN equals nothing, `-0 == 0`). -/
def eq : F64 → F64 → Bool
  | nan, _ => false
  | _, nan => false
  | negInf, negInf => true
  | posInf, posInf => true
  | negZero, negZero => true
  | negZero, fin q => decide (q = 0)
  | fin q, negZero => decide (q = 0)
  | fin p, fin q => decide (p = q)
  | _, _ => false

/-- Go `a != b` on float64. -/
def ne (a b : F64) : Bool := !(eq a b)

/-- Go `a < b` on float64 (false when either side is NaN). -/
def lt : F64 → F64 → Bool
  | nan, _ => false
  | _, nan => false
  | negInf, negInf => false
  | negInf, _ => true
  | _, negInf => false
  | posInf, _ => false
  | _, posInf => true
  | negZero, negZero => false
  | negZero, fin q => decide (0 < q)
  | fin p, negZero => decide (p < 0)
  | fin p, fin q => decide (p < q)

/-- Go `a <= b` on float64 (false when either side is NaN). -/
def le (a b : F64) : Bool := lt a b || eq a b

/-- The float64 literal `0`. -/
def zero : F64 := fin 0

/-- The float64 literal `1`. -/
def one : F64 := fin 1

/-- The number of binary digits of `n`, counted with `fuel` halvings. -/
def bitLenAux : Nat → Nat → Nat
  | 0, _ => 0
  | fuel + 1, n => if n = 0 then 0 else bitLenAux fuel (n / 2) + 1

/-- The number of binary digits of `n` (0 for 0). -/
def bitLen (n : Nat) : Nat := bitLenAux n n

/-- Round a natural number to the nearest one with at most 53 significant
bits, ties to even: the integer part of the `int → float64` conversion. -/
def round53 (n : Nat) : Nat :=
  if n < 2 ^ 53 then n
  else
    let sh := bitLen n - 53
    let q := n / 2 ^ sh
    let r := n % 2 ^ sh
    let half := 2 ^ (sh - 1)
    let q1 := if half < r ∨ (r = half ∧ q % 2 = 1) then q + 1 else q
    q1 * 2 ^ sh

/-- The finite float64 of magnitude `m` and the given sign. -/
def signed (neg : Bool) (m : Nat) : F64 :=
  if neg then fin (-(m : ℚ)) else fin (m : ℚ)

/-- Go `float64(i)` for an integer `i`: exact below `2^53`, otherwise rounded
to nearest, ties to even; magnitudes that round to `2^1024` or more (more than
1024 binary digits) overflow to an infinity. -/
def ofInt (i : Int) : F64 :=
  let n := i.natAbs
  if n < 2 ^ 53 then signed (decide (i < 0)) n
  else
    let m := round53 n
    if 1024 < bitLen m then (if i < 0 then negInf else posInf)
    else signed (decide (i < 0)) m

end F64

/-! ## Go errors and panics -/

/-- The error values `exec.Command(...).Output()` can hand back. -/
inductive GoError where
  /-- the sentinel `exec.ErrNotFound` itself -/
  | errNotFound
  /-- a `*exec.Error{Name, Err}`: what a failed path lookup produces -/
  | execError (name : String) (err : GoError)
  /-- a `*exec.ExitError`: the process ran and exited unsuccessfully -/
  | exitError (code : Nat)
  /-- any other error value (for example an `*os.PathError` from fork/exec) -/
  | other (msg : String)
deriving DecidableEq

/-- The ways the embedded functions can panic. -/
inductive Panic where
  /-- `panic(err)` -/
  | error (e : GoError)
  /-- index out of range -/
  | indexOutOfRange
  /-- nil pointer dereference -/
  | nilDereference
deriving DecidableEq

/-- A Go computation that returns a value or panics. -/
inductive Result (α : Type) where
  | ok (v : α)
  | panic (p : Panic)
deriving DecidableEq

/-! ## The host -/

/-- What `exec.Command(name, args...).Output()` returns: the captured standard
output and the error (`none` is Go's `nil`). -/
structure CmdOutput where
  out : String
  err : Option GoError
deriving DecidableEq

/-- One `output` element of the Cinnamon monitors file. -/
structure Output where
  Scale : F64
  Primary : Bool
deriving DecidableEq

/-- The `configuration` element of `cinnamonMonitorsConfig`. -/
structure Configuration where
  BaseScale : F64
  Output : List Output
deriving DecidableEq

/-- The struct `cinnamonMonitorsConfig` (fields that are decoded). -/
structure cinnamonMonitorsConfig where
  Version : String
  Configuration : Configuration
deriving DecidableEq

/-- What opening, reading and decoding the Cinnamon monitors file gives. -/
inductive ConfigFile where
  /-- `os.Open` returned an error (file absent or not openable) -/
  | openFailed
  /-- `ioutil.ReadAll` returned an error -/
  | readFailed
  /-- the bytes were read; `monitors` is the struct as `xml.Unmarshal` left it
  (possibly partially filled) and `unmarshalOk` tells whether it returned a
  nil error -/
  | read (monitors : cinnamonMonitorsConfig) (unmarshalOk : Bool)
deriving DecidableEq

/-- The host state one call of `impl` observes. -/
structure Host where
  /-- `os.Getenv` -/
  getenv : String → String
  /-- `exec.Command(name, args...).Output()` -/
  commandOutput : String → List String → CmdOutput
  /-- `user.Current()`: the home directory of the user, `none` when the
  lookup fails (the returned `*User` is then nil) -/
  userCurrent : Option String
  /-- the file `filepath.Join(home, cinnamonCfg)`, given `home` -/
  configFile : String → ConfigFile
  /-- whether the platform has 64-bit words (otherwise 32-bit ones) -/
  wordSize64 : Bool

/-- The size in bits of a Go `int` on the platform (`strconv.IntSize`). -/
def Host.intSize (h : Host) : Nat := if h.wordSize64 then 64 else 32

/-! ## Standard-library functions used by the source -/

/-- Splitting of a character list at every `sep`: `strings.Split` for a
one-character separator. An input without separator gives one token. -/
def splitChars (sep : Char) : List Char → List (List Char)
  | [] => [[]]
  | c :: cs =>
    if c = sep then [] :: splitChars sep cs
    else
      match splitChars sep cs with
      | [] => [[c]]
      | t :: ts => (c :: t) :: ts

/-- Go `strings.Split(s, sep)` for a one-character separator. -/
def stringsSplit (s : String) (sep : Char) : List String :=
  (splitChars sep s.data).map String.mk

/-- The regexp class `\d` (RE2: ASCII digits only). -/
def isDigit (c : Char) : Bool := decide ('0'.toNat ≤ c.toNat ∧ c.toNat ≤ '9'.toNat)

/-- The regexp class `\s` (RE2: tab, newline, form feed, carriage return, space). -/
def isSpace (c : Char) : Bool :=
  c = '\t' || c = '\n' || c = Char.ofNat 12 || c = '\r' || c = ' '

/-- Remove the literal prefix `p` from `s`, if it is there. -/
def stripPrefix : List Char → List Char → Option (List Char)
  | [], s => some s
  | _ :: _, [] => none
  | p :: ps, c :: cs => if p = c then stripPrefix ps cs else none

/-- The compiled pattern `\Auint32 (\d+)\s*\z` applied through
`FindStringSubmatch`: the whole match and the digit group, or the nil slice
(the empty list) when the string does not match. -/
def gsettingsRe_FindStringSubmatch (s : String) : List String :=
  match stripPrefix "uint32 ".data s.data with
  | none => []
  | some rest =>
    let ds := rest.takeWhile isDigit
    let ws := rest.dropWhile isDigit
    if ds ≠ [] ∧ ws.all isSpace then [s, String.mk ds] else []

/-- The value of a list of decimal digits, most significant first. -/
def digitsValue (ds : List Char) : Nat :=
  ds.foldl (fun a c => 10 * a + (c.toNat - '0'.toNat)) 0

/-- Go `strconv.Atoi(s)` for an `int` of `intSize` bits: an optional sign and
at least one decimal digit, in range; `none` stands for a non-nil error. -/
def Atoi (intSize : Nat) (s : String) : Option Int :=
  let signed : Bool × List Char :=
    match s.data with
    | '+' :: r => (false, r)
    | '-' :: r => (true, r)
    | r => (false, r)
  let ds := signed.2
  if ds = [] ∨ ¬ (ds.all isDigit) then none
  else
    let n := digitsValue ds
    if signed.1 then (if n ≤ 2 ^ (intSize - 1) then some (-(n : Int)) else none)
    else (if n < 2 ^ (intSize - 1) then some (n : Int) else none)

/-! ## The source -/

/-- The type `desktop`. -/
inductive desktop where
  | desktopUnknown
  | desktopGnome
  | desktopCinnamon
  | desktopUnity
  | desktopKDE
  | desktopXfce
deriving DecidableEq

open desktop

/-- Go `xs[i]`: panics when the index is out of range. -/
def index {α : Type} (xs : List α) (i : Nat) : Result α :=
  match xs.get? i with
  | some x => .ok x
  | none => .panic Panic.indexOutOfRange

/-- The function `currentDesktop`. -/
def currentDesktop (h : Host) : Result desktop :=
  let tokens := stringsSplit (h.getenv "XDG_CURRENT_DESKTOP") ':'
  match index tokens (tokens.length - 1) with
  | .panic p => .panic p
  | .ok t =>
    if t = "GNOME" then .ok desktopGnome
    else if t = "X-Cinnamon" then .ok desktopCinnamon
    else if t = "Unity" then .ok desktopUnity
    else if t = "KDE" then .ok desktopKDE
    else if t = "XFCE" then .ok desktopXfce
    else .ok desktopUnknown

/-- The function `gnomeScale`. -/
def gnomeScale (h : Host) : Result F64 :=
  let r := h.commandOutput "gsettings" ["get", "org.gnome.desktop.interface", "scaling-factor"]
  match r.err with
  | some err =>
    if err = GoError.errNotFound then .ok F64.zero
    else
      match err with
      | GoError.exitError _ => .ok F64.zero
      | _ => .panic (Panic.error err)
  | none =>
    let m := gsettingsRe_FindStringSubmatch r.out
    match index m 1 with
    | .panic p => .panic p
    | .ok m1 =>
      match Atoi h.intSize m1 with
      | none => .ok F64.zero
      | some s => .ok (F64.ofInt s)

/-- The function `cinnamonScale`. -/
def cinnamonScale (h : Host) : Result F64 :=
  let r := h.commandOutput "gsettings" ["get", "org.cinnamon.desktop.interface", "scaling-factor"]
  match r.err with
  | some err =>
    if err = GoError.errNotFound then .ok F64.zero
    else
      match err with
      | GoError.exitError _ => .ok F64.zero
      | _ => .panic (Panic.error err)
  | none =>
    let m := gsettingsRe_FindStringSubmatch r.out
    match index m 1 with
    | .panic p => .panic p
    | .ok m1 =>
      match Atoi h.intSize m1 with
      | none => .ok F64.zero
      | some s => .ok (F64.ofInt s)

/-- The method `XmlBool.UnmarshalXML`, on the decoded element text. -/
def XmlBool_UnmarshalXML (s : String) : Bool :=
  (s = "yes") || (s = "true") || (s = "on")

/-- The `for ... range` loop of `getCinnamonPrimaryMonitorScale`: `scale` is
the variable the loop updates, the list is what is left to visit. -/
def primaryLoop (scale : F64) : List Output → F64
  | [] => scale
  | v :: rest =>
    if v.Primary then
      (if F64.ne v.Scale F64.zero then v.Scale else scale)
    else primaryLoop scale rest

/-- The value of `scale` in `getCinnamonPrimaryMonitorScale` once a file has
been decoded without error: the base scale, then the loop over the outputs. -/
def primaryScale (monitors : cinnamonMonitorsConfig) : F64 :=
  primaryLoop monitors.Configuration.BaseScale monitors.Configuration.Output

/-- The function `getCinnamonPrimaryMonitorScale`. -/
def getCinnamonPrimaryMonitorScale (h : Host) : Result F64 :=
  let scale0 := F64.zero
  match h.userCurrent with
  | none => .panic Panic.nilDereference
  | some home =>
    let scale :=
      match h.configFile home with
      | ConfigFile.read monitors true => primaryScale monitors
      | _ => scale0
    if F64.eq scale F64.zero then cinnamonScale h else .ok scale

/-- The function `impl`. -/
def impl (h : Host) (_x _y : Int) : Result F64 :=
  let s0 := F64.fin (-1)
  match currentDesktop h with
  | .panic p => .panic p
  | .ok d =>
    let s1 : Result F64 :=
      match d with
      | desktopGnome => gnomeScale h
      | desktopCinnamon => getCinnamonPrimaryMonitorScale h
      | desktopUnity => .ok s0
      | desktopKDE => .ok s0
      | desktopXfce => .ok s0
      | desktopUnknown => .ok s0
    match s1 with
    | .panic p => .panic p
    | .ok s => if F64.le s F64.zero then .ok F64.one else .ok s

/-! ## The process state

What a process carries from one call of `impl` to the next. The only variable
of the package, `gsettingsRe`, is assigned when the package is initialised and
by none of its functions, so it is a constant of the embedding. What remains
is the cache of `user.Current()` in package `os/user` (the source notes
"getting current user is cached"): the first call does the lookup and keeps
what it got, a failure included; later calls return what was kept. -/

/-- The state of the process between calls: the cache of `user.Current()`,
`none` as long as no lookup has been made. -/
structure ProcState where
  userCache : Option (Option String)
deriving DecidableEq

/-- Go `user.Current()` in process state `st`, where `lookup` is what a lookup
made now returns: the home directory, or `none` for a failure. -/
def user_Current (st : ProcState) (lookup : Option String) : Option String × ProcState :=
  match st.userCache with
  | some u => (u, st)
  | none => (lookup, { userCache := some lookup })

/-- The function `getCinnamonPrimaryMonitorScale` in process state `st`: what
it gets from `user.Current()` comes through the cache. -/
def getCinnamonPrimaryMonitorScaleS (st : ProcState) (h : Host) : Result F64 × ProcState :=
  let r := user_Current st h.userCurrent
  (getCinnamonPrimaryMonitorScale { h with userCurrent := r.1 }, r.2)

/-- The function `impl` in process state `st`, with the state it leaves. -/
def implS (st : ProcState) (h : Host) (_x _y : Int) : Result F64 × ProcState :=
  let s0 := F64.fin (-1)
  match currentDesktop h with
  | .panic p => (.panic p, st)
  | .ok d =>
    let s1 : Result F64 × ProcState :=
      match d with
      | desktopGnome => (gnomeScale h, st)
      | desktopCinnamon => getCinnamonPrimaryMonitorScaleS st h
      | desktopUnity => (.ok s0, st)
      | desktopKDE => (.ok s0, st)
      | desktopXfce => (.ok s0, st)
      | desktopUnknown => (.ok s0, st)
    match s1.1 with
    | .panic p => (.panic p, s1.2)
    | .ok s => (if F64.le s F64.zero then .ok F64.one else .ok s, s1.2)

end Devicescale

/-! ## The mascot example (`examples/mascot/main.go`)

Go `int` arithmetic wraps around: sums and differences go through `wrapInt`.
Division and remainder truncate toward zero. What a call of `update` observes
(the screen size, the random draws, whether drawing is skipped) is a `Frame`;
what it does to the window and the screen is recorded as `Effects`. -/

namespace Mascot

/-- The constant `width`. -/
def width : Int := 200

/-- The constant `height`. -/
def height : Int := 200

/-- The constant `right` of type `dir`. -/
def right : Int := 0

/-- The constant `left` of type `dir`. -/
def left : Int := 1

/-- The struct `mascot`; `dir` is an integer type in the source. -/
structure mascot where
  x16 : Int
  y16 : Int
  vy16 : Int
  dir : Int
  count : Int
deriving DecidableEq

/-- What one call of `update` observes. -/
structure Frame where
  /-- whether a Go `int` has 64 bits (otherwise 32) -/
  wordSize64 : Bool
  /-- `ebiten.ScreenSizeInFullscreen()` -/
  sw : Int
  sh : Int
  /-- the value of `rand.Intn(60)` -/
  rand60 : Int
  /-- the value of `rand.Intn(2)`, drawn when the first test succeeds -/
  rand2 : Int
  /-- `ebiten.IsDrawingSkipped()` -/
  drawingSkipped : Bool

/-- What one call of `update` does besides changing the mascot: the arguments
of `SetWindowPosition` and, unless drawing is skipped, the image drawn (1, 2
or 3 for `gopher1`, `gopher2`, `gopher3`) and whether it is mirrored. -/
structure Effects where
  windowPosition : Int × Int
  drawn : Option (Nat × Bool)
deriving DecidableEq

/-- The result of `update`: the new mascot and the effects (the returned
error is always nil), or a panic with its message. -/
inductive Outcome where
  | ok (m : mascot) (e : Effects)
  | panic (msg : String)
deriving DecidableEq

/-- The number of bits of an `int`. -/
def intBits (wordSize64 : Bool) : Nat := if wordSize64 then 64 else 32

/-- Wrap-around of a Go `int` of `bits` bits (two's complement). -/
def wrapInt (bits : Nat) (x : Int) : Int :=
  (x + 2 ^ (bits - 1)) % 2 ^ bits - 2 ^ (bits - 1)

/-- The image choice of `update`: `gopher1` unless the mascot is on the ground,
where the frame counter picks the image. -/
def chooseImage (y16 count : Int) : Nat :=
  if y16 = 0 then
    (if Int.tmod (Int.tdiv count 3) 4 = 0 then 1
     else if Int.tmod (Int.tdiv count 3) 4 = 1 ∨ Int.tmod (Int.tdiv count 3) 4 = 3 then 2
     else if Int.tmod (Int.tdiv count 3) 4 = 2 then 3
     else 1)
  else 1

/-- The method `mascot.update`. -/
def update (m : mascot) (f : Frame) : Outcome :=
  let w := wrapInt (intBits f.wordSize64)
  let count := w (m.count + 1)
  let pos : Int × Int := (Int.tdiv m.x16 16, w (w (Int.tdiv m.y16 16 + f.sh) - height))
  let moved : Option Int :=
    if m.dir = right then some (w (m.x16 + 64))
    else if m.dir = left then some (w (m.x16 - 64))
    else none
  match moved with
  | none => Outcome.panic "not reached"
  | some x16 =>
    let dir1 := if Int.tdiv x16 16 > w (f.sw - width) ∧ m.dir = right then left else m.dir
    let dir2 := if x16 ≤ 0 ∧ dir1 = left then right else dir1
    let vy1 := w (m.vy16 + 8)
    let y1 := w (m.y16 + vy1)
    let y16 := if y1 ≥ 0 then 0 else y1
    let vy2 := if y1 ≥ 0 then 0 else vy1
    let jump := f.rand60 = 0 ∧ y16 = 0
    let vy16 := if jump ∧ f.rand2 = 0 then -240 else vy2
    let dir :=
      if jump ∧ f.rand2 = 1 then (if dir2 = right then left else right) else dir2
    let drawn : Option (Nat × Bool) :=
      if f.drawingSkipped then none
      else some (chooseImage y16 count, decide (dir = left))
    Outcome.ok ⟨x16, y16, vy16, dir, count⟩ ⟨pos, drawn⟩

/-- The mascot `main` starts with: `&mascot{}`, every field zero. -/
def initial : mascot := ⟨0, 0, 0, 0, 0⟩

/-- The mascot after the calls of `update` that `ebiten.Run` makes, one per
frame; a panic ends the run. -/
def run : mascot → List Frame → Option mascot
  | m, [] => some m
  | m, f :: fs =>
    match update m f with
    | Outcome.panic _ => none
    | Outcome.ok m1 _ => run m1 fs

end Mascot

namespace Devicescale

open desktop

/-! ## Definitions used to state the properties -/

/-- The last colon-separated token of a string: the characters after its last
colon (the whole string when it has none). -/
def lastToken (s : String) : String :=
  String.mk ((s.data.reverse.takeWhile (fun c => decide (c ≠ ':'))).reverse)

/-- The outcome of the gsettings query `gnomeScale` makes. -/
abbrev Host.gnomeQuery (h : Host) : CmdOutput :=
  h.commandOutput "gsettings" ["get", "org.gnome.desktop.interface", "scaling-factor"]

/-- The outcome of the gsettings query `cinnamonScale` makes. -/
abbrev Host.cinnamonQuery (h : Host) : CmdOutput :=
  h.commandOutput "gsettings" ["get", "org.cinnamon.desktop.interface", "scaling-factor"]

/-- Primary-scale resolution as the specification words it: the first primary
output decides, with its own scale when that is non-zero and the base scale
otherwise; without a primary output the base scale is the result. -/
def specPrimaryScale (b : F64) (outputs : List Output) : F64 :=
  match outputs.find? (fun o => o.Primary) with
  | some e => if F64.ne e.Scale F64.zero then e.Scale else b
  | none => b

/-- The outputs up to and including the first primary one. -/
def throughFirstPrimary (outputs : List Output) : List Output :=
  outputs.takeWhile (fun o => !o.Primary) ++ (outputs.dropWhile (fun o => !o.Primary)).take 1

/-- The strings the pattern `\Auint32 (\d+)\s*\z` accepts, with the digit
group: `uint32 `, then one or more digits, then whitespace to the end. -/
def MatchesPattern (s : String) (ds : List Char) : Prop :=
  ∃ ws : List Char, ds ≠ [] ∧ (∀ c ∈ ds, isDigit c = true) ∧ (∀ c ∈ ws, isSpace c = true) ∧
    s.data = "uint32 ".data ++ ds ++ ws

/-- The common body of `gnomeScale` and `cinnamonScale`, as a function of the
size of `int` and of what the gsettings invocation returned. -/
def probe (intSize : Nat) (r : CmdOutput) : Result F64 :=
  match r.err with
  | some err =>
    if err = GoError.errNotFound then .ok F64.zero
    else
      match err with
      | GoError.exitError _ => .ok F64.zero
      | _ => .panic (Panic.error err)
  | none =>
    let m := gsettingsRe_FindStringSubmatch r.out
    match index m 1 with
    | .panic p => .panic p
    | .ok m1 =>
      match Atoi intSize m1 with
      | none => .ok F64.zero
      | some s => .ok (F64.ofInt s)

/-- The last step of `impl`: a value that is not above zero becomes `1`. -/
def normalise (r : Result F64) : Result F64 :=
  match r with
  | .panic p => .panic p
  | .ok s => .ok (if F64.lt F64.zero s then s else F64.one)

/-- The value of `scale` in `getCinnamonPrimaryMonitorScale` when the fallback
test `scale == 0` is reached: the primary scale of a file that was opened,
read and decoded, and 0 otherwise. -/
def scaleBeforeFallback (f : ConfigFile) : F64 :=
  match f with
  | ConfigFile.read monitors true => primaryScale monitors
  | _ => F64.zero

/-- The host as a later call in the same process finds it: the platform is the
same, everything else may have changed. -/
def Host.later (h : Host) (getenv2 : String → String)
    (commandOutput2 : String → List String → CmdOutput) (userCurrent2 : Option String)
    (configFile2 : String → ConfigFile) : Host :=
  { getenv := getenv2
    commandOutput := commandOutput2
    userCurrent := userCurrent2
    configFile := configFile2
    wordSize64 := h.wordSize64 }

/-- Whether `probe` absorbs the outcome `r` of the gsettings invocation: a
successful run whose output the pattern accepts, the bare `exec.ErrNotFound`,
or an `*exec.ExitError`. -/
def probeReturns (r : CmdOutput) : Bool :=
  match r.err with
  | none => !(gsettingsRe_FindStringSubmatch r.out).isEmpty
  | some GoError.errNotFound => true
  | some (GoError.exitError _) => true
  | some _ => false

/-- A 64-bit host on which `XDG_CURRENT_DESKTOP` is `env`, every process
invocation returns `r`, the user lookup succeeds and the Cinnamon monitors
file is in state `file`. -/
def mkHost (env : String) (r : CmdOutput) (file : ConfigFile) : Host :=
  { getenv := fun k => if k = "XDG_CURRENT_DESKTOP" then env else ""
    commandOutput := fun _ _ => r
    userCurrent := some "/home/u"
    configFile := fun _ => file
    wordSize64 := true }

/-- An error of the process invocation that is neither `exec.ErrNotFound` nor
an `*exec.ExitError`: the fork failed. -/
def startFailure : GoError :=
  GoError.other "fork/exec /usr/bin/gsettings: resource temporarily unavailable"

/-! ## Lemmas -/

theorem splitChars_ne_nil (sep : Char) (l : List Char) : splitChars sep l ≠ [] := by
  induction l with
  | nil => simp [splitChars]
  | cons c cs ih =>
    unfold splitChars
    split_ifs
    · simp
    · cases h : splitChars sep cs <;> simp

theorem splitChars_of_not_mem (sep : Char) (t : List Char) (ht : sep ∉ t) :
    splitChars sep t = [t] := by
  induction t with
  | nil => rfl
  | cons c cs ih =>
    have hc : c ≠ sep := fun e => ht (by simp [e])
    have hcs : sep ∉ cs := fun e => ht (by simp [e])
    simp [splitChars, hc, ih hcs]

theorem splitChars_append_sep (sep : Char) (a b : List Char) :
    splitChars sep (a ++ sep :: b) = splitChars sep a ++ splitChars sep b := by
  induction a with
  | nil => simp [splitChars]
  | cons c cs ih =>
    by_cases hc : c = sep
    · simp [splitChars, hc, ih]
    · have e : (c :: cs) ++ sep :: b = c :: (cs ++ sep :: b) := rfl
      rw [e]
      simp only [splitChars, hc, if_false, ih]
      cases h : splitChars sep cs with
      | nil => exact absurd h (splitChars_ne_nil sep cs)
      | cons t ts => rfl

theorem sep_decomposition (sep : Char) (l : List Char) :
    sep ∉ l ∨ ∃ a t, l = a ++ sep :: t ∧ sep ∉ t := by
  induction l with
  | nil => left; simp
  | cons c cs ih =>
    rcases ih with h | ⟨a, t, rfl, ht⟩
    · by_cases hc : c = sep
      · right; exact ⟨[], cs, by simp [hc], h⟩
      · left; simp [h, Ne.symm hc]
    · right; exact ⟨c :: a, t, by simp, ht⟩

theorem splitChars_last (sep : Char) (l : List Char) :
    (splitChars sep l).get? ((splitChars sep l).length - 1)
      = some ((l.reverse.takeWhile (fun c => decide (c ≠ sep))).reverse) := by
  rw [List.get?_eq_getElem?, ← List.getLast?_eq_getElem?]
  rcases sep_decomposition sep l with h | ⟨a, t, rfl, ht⟩
  · rw [splitChars_of_not_mem sep l h]
    have : l.reverse.takeWhile (fun c => decide (c ≠ sep)) = l.reverse := by
      rw [List.takeWhile_eq_self_iff]
      intro x hx
      have : x ∈ l := by simpa using hx
      simp; rintro rfl; exact h this
    rw [this]; simp
  · rw [splitChars_append_sep, splitChars_of_not_mem sep t ht]
    have : (a ++ sep :: t).reverse.takeWhile (fun c => decide (c ≠ sep)) = t.reverse := by
      have e : (a ++ sep :: t).reverse = t.reverse ++ sep :: a.reverse := by simp
      rw [e, List.takeWhile_append_of_pos]
      · simp
      · intro x hx
        have : x ∈ t := by simpa using hx
        simp; rintro rfl; exact ht this
    rw [this]; simp

theorem currentDesktop_eq (h : Host) :
    currentDesktop h = .ok
      (if lastToken (h.getenv "XDG_CURRENT_DESKTOP") = "GNOME" then desktopGnome
       else if lastToken (h.getenv "XDG_CURRENT_DESKTOP") = "X-Cinnamon" then desktopCinnamon
       else if lastToken (h.getenv "XDG_CURRENT_DESKTOP") = "Unity" then desktopUnity
       else if lastToken (h.getenv "XDG_CURRENT_DESKTOP") = "KDE" then desktopKDE
       else if lastToken (h.getenv "XDG_CURRENT_DESKTOP") = "XFCE" then desktopXfce
       else desktopUnknown) := by
  unfold currentDesktop index stringsSplit
  simp only [List.length_map, List.get?_eq_getElem?, List.getElem?_map]
  have := splitChars_last ':' (h.getenv "XDG_CURRENT_DESKTOP").data
  rw [List.get?_eq_getElem?] at this
  rw [this]
  simp only [Option.map_some', lastToken]
  split_ifs <;> rfl

theorem primaryLoop_eq_spec (b : F64) (outs : List Output) :
    primaryLoop b outs = specPrimaryScale b outs := by
  induction outs with
  | nil => rfl
  | cons v rest ih =>
    by_cases hp : v.Primary = true
    · simp [primaryLoop, specPrimaryScale, hp]
    · simp only [primaryLoop, hp, if_false, Bool.false_eq_true]
      rw [ih]
      simp [specPrimaryScale, hp]

theorem primaryLoop_through (b : F64) (outs : List Output) :
    primaryLoop b (throughFirstPrimary outs) = primaryLoop b outs := by
  induction outs with
  | nil => rfl
  | cons v rest ih =>
    by_cases hp : v.Primary = true
    · simp [primaryLoop, throughFirstPrimary, hp]
    · simp only [throughFirstPrimary] at ih
      simp [primaryLoop, throughFirstPrimary, hp, ih]

theorem F64.le_zero_of_ne_nan (s : F64) (hs : s ≠ F64.nan) :
    F64.le s F64.zero = !(F64.lt F64.zero s) := by
  cases s with
  | nan => exact absurd rfl hs
  | negInf => rfl
  | posInf => rfl
  | negZero => simp [F64.le, F64.lt, F64.eq, F64.zero]
  | fin q =>
    simp only [F64.le, F64.lt, F64.eq, F64.zero]
    rcases lt_trichotomy q 0 with h | h | h
    · simp [h, not_lt.mpr h.le]
    · simp [h]
    · simp [h, not_lt.mpr h.le, h.ne']

theorem F64.ofInt_ne_nan (i : Int) : F64.ofInt i ≠ F64.nan := by
  unfold F64.ofInt F64.signed
  simp only
  split_ifs <;> simp

theorem gnomeScale_ne_nan (h : Host) (s : F64) (hs : gnomeScale h = .ok s) : s ≠ F64.nan := by
  unfold gnomeScale at hs
  simp only at hs
  split at hs
  · split_ifs at hs
    · cases hs; simp [F64.zero]
    · split at hs
      · cases hs; simp [F64.zero]
      · cases hs
  · split at hs
    · cases hs
    · split at hs
      · cases hs; simp [F64.zero]
      · cases hs; exact F64.ofInt_ne_nan _

theorem cinnamonScale_ne_nan (h : Host) (s : F64) (hs : cinnamonScale h = .ok s) :
    s ≠ F64.nan := by
  unfold cinnamonScale at hs
  simp only at hs
  split at hs
  · split_ifs at hs
    · cases hs; simp [F64.zero]
    · split at hs
      · cases hs; simp [F64.zero]
      · cases hs
  · split at hs
    · cases hs
    · split at hs
      · cases hs; simp [F64.zero]
      · cases hs; exact F64.ofInt_ne_nan _

theorem impl_gnome_eq (h : Host) (x y : Int) (hd : currentDesktop h = .ok .desktopGnome) :
    impl h x y = match gnomeScale h with
      | .panic p => .panic p
      | .ok s => .ok (if F64.lt F64.zero s then s else F64.one) := by
  unfold impl
  simp only [hd]
  cases hs : gnomeScale h with
  | panic p => rfl
  | ok s =>
    simp only
    rw [F64.le_zero_of_ne_nan s (gnomeScale_ne_nan h s hs)]
    cases F64.lt F64.zero s <;> rfl

theorem impl_other (h : Host) (x y : Int)
    (hd : currentDesktop h = .ok .desktopUnity ∨ currentDesktop h = .ok .desktopKDE ∨
      currentDesktop h = .ok .desktopXfce ∨ currentDesktop h = .ok .desktopUnknown) :
    impl h x y = .ok F64.one := by
  have e : F64.le (F64.fin (-1)) F64.zero = true := by
    simp [F64.le, F64.lt, F64.zero]
  unfold impl
  rcases hd with hd | hd | hd | hd <;> simp [hd, e]

theorem stripPrefix_append (p s : List Char) : stripPrefix p (p ++ s) = some s := by
  induction p with
  | nil => cases s <;> rfl
  | cons c cs ih => simp [stripPrefix, ih]

theorem stripPrefix_eq_some (p s r : List Char) (h : stripPrefix p s = some r) : s = p ++ r := by
  induction p generalizing s with
  | nil => cases s <;> simp_all [stripPrefix]
  | cons c cs ih =>
    cases s with
    | nil => simp [stripPrefix] at h
    | cons d ds =>
      simp only [stripPrefix] at h
      split_ifs at h with hcd
      rw [hcd, ih ds h]; rfl

theorem isDigit_of_isSpace (c : Char) (h : isSpace c = true) : isDigit c = false := by
  simp only [isSpace, Bool.or_eq_true, decide_eq_true_eq] at h
  rcases h with (((h | h) | h) | h) | h <;> subst h <;> decide

theorem takeWhile_digits_spaces (ds ws : List Char) (hd : ∀ c ∈ ds, isDigit c = true)
    (hw : ∀ c ∈ ws, isSpace c = true) : (ds ++ ws).takeWhile isDigit = ds := by
  rw [List.takeWhile_append_of_pos hd]
  cases ws with
  | nil => simp
  | cons c cs => simp [List.takeWhile, isDigit_of_isSpace c (hw c (by simp))]

theorem dropWhile_digits_spaces (ds ws : List Char) (hd : ∀ c ∈ ds, isDigit c = true)
    (hw : ∀ c ∈ ws, isSpace c = true) : (ds ++ ws).dropWhile isDigit = ws := by
  rw [List.dropWhile_append_of_pos hd]
  cases ws with
  | nil => simp
  | cons c cs => simp [List.dropWhile, isDigit_of_isSpace c (hw c (by simp))]

theorem find_of_matches (s : String) (ds : List Char) (h : MatchesPattern s ds) :
    gsettingsRe_FindStringSubmatch s = [s, String.mk ds] := by
  obtain ⟨ws, hne, hd, hw, hs⟩ := h
  unfold gsettingsRe_FindStringSubmatch
  rw [hs, List.append_assoc, stripPrefix_append]
  simp only [takeWhile_digits_spaces ds ws hd hw, dropWhile_digits_spaces ds ws hd hw]
  rw [if_pos]
  exact ⟨hne, by simpa [List.all_eq_true] using hw⟩

theorem find_eq_nil_iff (s : String) :
    gsettingsRe_FindStringSubmatch s = [] ↔ ¬ ∃ ds, MatchesPattern s ds := by
  constructor
  · rintro h ⟨ds, hm⟩
    rw [find_of_matches s ds hm] at h
    cases h
  · intro h
    unfold gsettingsRe_FindStringSubmatch
    split
    · rfl
    · rename_i rest hrest
      simp only
      split_ifs with hc
      · exfalso
        apply h
        refine ⟨rest.takeWhile isDigit, rest.dropWhile isDigit, hc.1, ?_, ?_, ?_⟩
        · intro c hc'; exact List.mem_takeWhile_imp hc'
        · simpa [List.all_eq_true] using hc.2
        · rw [stripPrefix_eq_some _ _ _ hrest, List.append_assoc,
            List.takeWhile_append_dropWhile]
      · rfl

theorem digitChar_spec (k : Nat) (hk : k < 10) :
    isDigit (Nat.digitChar k) = true ∧ (Nat.digitChar k).toNat - '0'.toNat = k := by
  interval_cases k <;> decide

theorem digitsValue_append_single (pre : List Char) (d : Char) :
    digitsValue (pre ++ [d]) = 10 * digitsValue pre + (d.toNat - '0'.toNat) := by
  simp [digitsValue, List.foldl_append]

theorem toDigitsCore_spec (fuel n : Nat) (acc : List Char) (h : n < fuel) :
    ∃ pre, Nat.toDigitsCore 10 fuel n acc = pre ++ acc ∧ pre ≠ [] ∧
      (∀ c ∈ pre, isDigit c = true) ∧ digitsValue pre = n := by
  induction fuel generalizing n acc with
  | zero => omega
  | succ fuel ih =>
    have hd := digitChar_spec (n % 10) (Nat.mod_lt _ (by decide))
    simp only [Nat.toDigitsCore]
    split_ifs with h0
    · refine ⟨[Nat.digitChar (n % 10)], rfl, by simp, by simpa using hd.1, ?_⟩
      have := digitsValue_append_single [] (Nat.digitChar (n % 10))
      simp only [List.nil_append] at this
      rw [this, hd.2]
      simp [digitsValue]; omega
    · obtain ⟨pre, he, hne, hall, hv⟩ := ih (n / 10) (Nat.digitChar (n % 10) :: acc) (by omega)
      refine ⟨pre ++ [Nat.digitChar (n % 10)], by simp [he], by simp, ?_, ?_⟩
      · intro c hc
        rcases List.mem_append.mp hc with hc | hc
        · exact hall c hc
        · have : c = Nat.digitChar (n % 10) := by simpa using hc
          rw [this]; exact hd.1
      · rw [digitsValue_append_single, hv, hd.2]; omega

theorem repr_spec (n : Nat) :
    (Nat.repr n).data ≠ [] ∧ (∀ c ∈ (Nat.repr n).data, isDigit c = true) ∧
      digitsValue (Nat.repr n).data = n := by
  obtain ⟨pre, he, hne, hall, hv⟩ := toDigitsCore_spec (n + 1) n [] (by omega)
  have : (Nat.repr n).data = pre := by
    simp [Nat.repr, Nat.toDigits, he, List.asString]
  rw [this]
  exact ⟨hne, hall, hv⟩

theorem Atoi_digits (bits : Nat) (ds : List Char) (hne : ds ≠ [])
    (hd : ∀ c ∈ ds, isDigit c = true) :
    Atoi bits (String.mk ds) =
      if digitsValue ds < 2 ^ (bits - 1) then some (digitsValue ds : Int) else none := by
  unfold Atoi
  have hall : ds.all isDigit = true := by simpa [List.all_eq_true] using hd
  cases ds with
  | nil => exact absurd rfl hne
  | cons c cs =>
    have hc : isDigit c = true := hd c (by simp)
    have h1 : c ≠ '+' := by rintro rfl; revert hc; decide
    have h2 : c ≠ '-' := by rintro rfl; revert hc; decide
    split
    · rename_i r heq; simp at heq; exact absurd heq.1 h1
    · rename_i r heq; simp at heq; exact absurd heq.1 h2
    · rename_i r hn1 hn2
      simp [hall]

theorem gnomeScale_eq_probe (h : Host) : gnomeScale h = probe h.intSize h.gnomeQuery := rfl

theorem cinnamonScale_eq_probe (h : Host) :
    cinnamonScale h = probe h.intSize h.cinnamonQuery := rfl

theorem probe_of_matches (bits : Nat) (s : String) (ds : List Char)
    (hm : MatchesPattern s ds) :
    probe bits ⟨s, none⟩ =
      .ok (if digitsValue ds < 2 ^ (bits - 1) then F64.ofInt (digitsValue ds) else F64.zero) := by
  have hm' := hm
  obtain ⟨ws, hne, hd, hw, hs⟩ := hm'
  simp only [probe, find_of_matches s ds hm, index, List.get?, Atoi_digits bits ds hne hd]
  split_ifs <;> rfl

theorem probe_of_not_matches (bits : Nat) (s : String) (hm : ¬ ∃ ds, MatchesPattern s ds) :
    probe bits ⟨s, none⟩ = .panic Panic.indexOutOfRange := by
  simp only [probe, (find_eq_nil_iff s).mpr hm, index, List.get?]

theorem F64.ofInt_of_lt (n : Nat) (hn : n < 2 ^ 53) : F64.ofInt (n : Int) = F64.fin (n : ℚ) := by
  have hneg : ¬ ((n : Int) < 0) := by omega
  simp only [F64.ofInt, Int.natAbs_ofNat, if_pos hn, hneg, decide_False, F64.signed, if_false,
    Bool.false_eq_true]

theorem F64.bitLenAux_spec (fuel n : Nat) (hf : n ≤ fuel) (hn : 0 < n) :
    2 ^ (F64.bitLenAux fuel n - 1) ≤ n ∧ n < 2 ^ F64.bitLenAux fuel n := by
  induction fuel generalizing n with
  | zero => omega
  | succ fuel ih =>
    simp only [F64.bitLenAux, Nat.ne_of_gt hn, if_false, Nat.add_sub_cancel]
    by_cases h2 : n / 2 = 0
    · have h1 : n = 1 := by omega
      subst h1
      cases fuel <;> simp [F64.bitLenAux]
    · obtain ⟨ih1, ih2⟩ := ih (n / 2) (by omega) (by omega)
      have hb : 0 < F64.bitLenAux fuel (n / 2) := by
        by_contra hb
        have : F64.bitLenAux fuel (n / 2) = 0 := by omega
        rw [this] at ih2
        simp at ih2; omega
      constructor
      · have : 2 ^ F64.bitLenAux fuel (n / 2)
            = 2 ^ (F64.bitLenAux fuel (n / 2) - 1) * 2 := by
          rw [← pow_succ]; congr 1; omega
        rw [this]; omega
      · rw [pow_succ]; omega

theorem F64.bitLen_spec (n : Nat) (hn : 0 < n) :
    2 ^ (F64.bitLen n - 1) ≤ n ∧ n < 2 ^ F64.bitLen n :=
  F64.bitLenAux_spec n n (le_refl n) hn

theorem F64.round53_pos (n : Nat) (hn : 0 < n) : 0 < F64.round53 n := by
  unfold F64.round53
  split_ifs with h
  · exact hn
  · simp only
    have hle : 2 ^ (F64.bitLen n - 53) ≤ n :=
      le_trans (Nat.pow_le_pow_right (by decide) (by omega)) (F64.bitLen_spec n hn).1
    have hq : 0 < n / 2 ^ (F64.bitLen n - 53) := Nat.div_pos hle (by positivity)
    have h2 : 0 < 2 ^ (F64.bitLen n - 53) := by positivity
    split_ifs
    · positivity
    · exact Nat.mul_pos hq h2

theorem F64.ofInt_pos (n : Nat) (hn : 0 < n) : F64.lt F64.zero (F64.ofInt (n : Int)) = true := by
  have hr := F64.round53_pos n hn
  have hneg : ¬ ((n : Int) < 0) := by omega
  simp only [F64.ofInt, Int.natAbs_ofNat, hneg, decide_False, F64.signed, if_false,
    Bool.false_eq_true]
  split_ifs
  · simp [F64.lt, F64.zero, hn]
  · rfl
  · simp [F64.lt, F64.zero, hr]

theorem lastToken_append (pre t : String) (ht : ':' ∉ t.data) :
    lastToken (pre ++ ":" ++ t) = t ∧ lastToken t = t := by
  have hall : ∀ x ∈ t.data.reverse, (fun c => decide (c ≠ ':')) x = true := by
    intro x hx
    have : x ∈ t.data := by simpa using hx
    simp; rintro rfl; exact ht this
  constructor
  · unfold lastToken
    have e : (pre ++ ":" ++ t).data.reverse = t.data.reverse ++ ':' :: pre.data.reverse := by
      simp [String.data_append]
    rw [e, List.takeWhile_append_of_pos hall]
    simp
  · unfold lastToken
    rw [List.takeWhile_eq_self_iff.mpr hall]
    simp

theorem probe_ne_nan (bits : Nat) (r : CmdOutput) (s : F64) (hs : probe bits r = .ok s) :
    s ≠ F64.nan := by
  unfold probe at hs
  split at hs
  · split_ifs at hs
    · cases hs; simp [F64.zero]
    · split at hs
      · cases hs; simp [F64.zero]
      · cases hs
  · simp only at hs
    split at hs
    · cases hs
    · split at hs
      · cases hs; simp [F64.zero]
      · cases hs; exact F64.ofInt_ne_nan _

theorem probe_returns (bits : Nat) (r : CmdOutput) (hr : probeReturns r = true) :
    ∃ v, probe bits r = .ok v := by
  unfold probeReturns at hr
  unfold probe
  split at hr
  · rename_i he
    rw [he]
    simp only
    cases hm : gsettingsRe_FindStringSubmatch r.out with
    | nil => simp [hm] at hr
    | cons a l =>
      have hfind := hm
      unfold gsettingsRe_FindStringSubmatch at hm
      split at hm
      · cases hm
      · simp only at hm
        split_ifs at hm
        cases hm
        simp only [index, List.get?]
        split <;> exact ⟨_, rfl⟩
  · rename_i he; rw [he]; exact ⟨_, rfl⟩
  · rename_i c he; rw [he]; exact ⟨_, rfl⟩
  · cases hr

/-- The last step of `impl` as the code writes it. -/
theorem impl_eq (h : Host) (x y : Int) (d : desktop) (hd : currentDesktop h = .ok d) :
    impl h x y =
      match (match d with
        | desktopGnome => gnomeScale h
        | desktopCinnamon => getCinnamonPrimaryMonitorScale h
        | _ => .ok (F64.fin (-1))) with
      | .panic p => .panic p
      | .ok s => if F64.le s F64.zero then .ok F64.one else .ok s := by
  unfold impl
  simp only [hd]
  cases d <;> rfl

theorem normalise_code (s : F64) (hs : s ≠ F64.nan) :
    (if F64.le s F64.zero then Result.ok F64.one else Result.ok s) = normalise (.ok s) := by
  rw [F64.le_zero_of_ne_nan s hs]
  cases hlt : F64.lt F64.zero s <;> simp [normalise, hlt]

theorem normalise_pos (s : F64) :
    ∃ v, normalise (.ok s) = .ok v ∧ F64.lt F64.zero v = true := by
  unfold normalise
  by_cases hlt : F64.lt F64.zero s = true
  · exact ⟨s, by simp [hlt], hlt⟩
  · refine ⟨F64.one, by simp [hlt], ?_⟩
    simp [F64.lt, F64.zero, F64.one]

theorem getCinnamon_fallback (h : Host) (home : String) (hu : h.userCurrent = some home)
    (hf : h.configFile home = .openFailed ∨ h.configFile home = .readFailed ∨
      (∃ m, h.configFile home = .read m false) ∨
      (∃ m, h.configFile home = .read m true ∧ F64.eq (primaryScale m) F64.zero = true)) :
    getCinnamonPrimaryMonitorScale h = cinnamonScale h := by
  unfold getCinnamonPrimaryMonitorScale
  simp only [hu]
  have hz : F64.eq F64.zero F64.zero = true := by simp [F64.eq, F64.zero]
  rcases hf with hf | hf | ⟨m, hf⟩ | ⟨m, hf, he⟩
  · simp [hf, hz]
  · simp [hf, hz]
  · simp [hf, hz]
  · simp [hf, he]

theorem getCinnamon_file (h : Host) (home : String) (m : cinnamonMonitorsConfig)
    (hu : h.userCurrent = some home) (hf : h.configFile home = .read m true)
    (he : F64.ne (primaryScale m) F64.zero = true) :
    getCinnamonPrimaryMonitorScale h = .ok (primaryScale m) := by
  unfold getCinnamonPrimaryMonitorScale
  have he' : F64.eq (primaryScale m) F64.zero = false := by
    simpa [F64.ne] using he
  simp [hu, hf, he']

theorem lastToken_spec (s : String) :
    ':' ∉ (lastToken s).data ∧
      (s = lastToken s ∨ ∃ pre : String, s = pre ++ ":" ++ lastToken s) := by
  rcases sep_decomposition ':' s.data with h | ⟨a, t, hs, ht⟩
  · have := (lastToken_append "" s h).2
    rw [this]
    exact ⟨h, Or.inl rfl⟩
  · have e : s = String.mk a ++ ":" ++ String.mk t := by
      apply String.ext
      simp [String.data_append, hs]
    have := (lastToken_append (String.mk a) (String.mk t) ht).1
    rw [← e] at this
    rw [this]
    exact ⟨ht, Or.inr ⟨String.mk a, e⟩⟩

theorem primaryLoop_skip (b : F64) (pre rest : List Output)
    (hpre : ∀ o ∈ pre, o.Primary = false) :
    primaryLoop b (pre ++ rest) = primaryLoop b rest := by
  induction pre with
  | nil => rfl
  | cons v vs ih =>
    have hv : v.Primary = false := hpre v (by simp)
    simp only [List.cons_append, primaryLoop, hv, Bool.false_eq_true, if_false]
    exact ih (fun o ho => hpre o (by simp [ho]))

theorem Host.intSize_cases (h : Host) : h.intSize = 64 ∨ h.intSize = 32 := by
  unfold Host.intSize
  cases h.wordSize64 <;> simp

theorem matches_append (ds w : String) (hne : ds.data ≠ [])
    (hd : ∀ c ∈ ds.data, isDigit c = true) (hw : ∀ c ∈ w.data, isSpace c = true) :
    MatchesPattern ("uint32 " ++ ds ++ w) ds.data :=
  ⟨w.data, hne, hd, hw, by simp [String.data_append]⟩

theorem probe_digits (bits : Nat) (ds w : String) (hne : ds.data ≠ [])
    (hd : ∀ c ∈ ds.data, isDigit c = true) (hw : ∀ c ∈ w.data, isSpace c = true)
    (hn : digitsValue ds.data < 2 ^ (bits - 1)) :
    probe bits ⟨"uint32 " ++ ds ++ w, none⟩ = .ok (F64.ofInt (digitsValue ds.data)) := by
  rw [probe_of_matches bits _ ds.data (matches_append ds w hne hd hw), if_pos hn]

theorem probe_zero_or_pos (bits : Nat) (r : CmdOutput) (v : F64) (hv : probe bits r = .ok v) :
    v = F64.zero ∨ F64.lt F64.zero v = true := by
  obtain ⟨out, err⟩ := r
  cases err with
  | some e =>
    simp only [probe] at hv
    split_ifs at hv
    · cases hv; exact Or.inl rfl
    · split at hv
      · cases hv; exact Or.inl rfl
      · cases hv
  | none =>
    by_cases hm : ∃ ds, MatchesPattern out ds
    · obtain ⟨ds, hds⟩ := hm
      rw [probe_of_matches bits out ds hds] at hv
      split_ifs at hv
      · cases hv
        rcases Nat.eq_zero_or_pos (digitsValue ds) with h0 | h0
        · left
          rw [h0]
          exact F64.ofInt_of_lt 0 (by decide)
        · exact Or.inr (F64.ofInt_pos _ h0)
      · cases hv; exact Or.inl rfl
    · rw [probe_of_not_matches bits out hm] at hv
      cases hv

theorem probe_out_of_range (bits : Nat) (ds w : String) (hne : ds.data ≠ [])
    (hd : ∀ c ∈ ds.data, isDigit c = true) (hw : ∀ c ∈ w.data, isSpace c = true)
    (hn : 2 ^ (bits - 1) ≤ digitsValue ds.data) :
    probe bits ⟨"uint32 " ++ ds ++ w, none⟩ = .ok F64.zero := by
  rw [probe_of_matches bits _ ds.data (matches_append ds w hne hd hw), if_neg (by omega)]

theorem currentDesktop_congr (h1 h2 : Host)
    (henv : h1.getenv "XDG_CURRENT_DESKTOP" = h2.getenv "XDG_CURRENT_DESKTOP") :
    currentDesktop h1 = currentDesktop h2 := by
  unfold currentDesktop
  rw [henv]

theorem Host.intSize_congr (h1 h2 : Host) (hw : h1.wordSize64 = h2.wordSize64) :
    h1.intSize = h2.intSize := by
  unfold Host.intSize
  rw [hw]

theorem getCinnamon_congr (h1 h2 : Host)
    (hc : h1.cinnamonQuery = h2.cinnamonQuery) (hu : h1.userCurrent = h2.userCurrent)
    (hf : ∀ home, h1.userCurrent = some home → h1.configFile home = h2.configFile home)
    (hw : h1.wordSize64 = h2.wordSize64) :
    getCinnamonPrimaryMonitorScale h1 = getCinnamonPrimaryMonitorScale h2 := by
  have hcs : cinnamonScale h1 = cinnamonScale h2 := by
    rw [cinnamonScale_eq_probe, cinnamonScale_eq_probe, hc, Host.intSize_congr h1 h2 hw]
  unfold getCinnamonPrimaryMonitorScale
  rw [← hu, hcs]
  cases hx : h1.userCurrent with
  | none => rfl
  | some home => simp only [hf home hx]

theorem getCinnamon_zero_or_pos (h : Host) (v : F64)
    (hfile : ∀ home m, h.userCurrent = some home → h.configFile home = .read m true →
      F64.le F64.zero (primaryScale m) = true)
    (hv : getCinnamonPrimaryMonitorScale h = .ok v) :
    v = F64.zero ∨ F64.lt F64.zero v = true := by
  unfold getCinnamonPrimaryMonitorScale at hv
  cases hu : h.userCurrent with
  | none => simp [hu] at hv
  | some home =>
    simp only [hu] at hv
    split_ifs at hv with hz
    · rw [cinnamonScale_eq_probe] at hv
      exact probe_zero_or_pos _ _ _ hv
    · cases hv
      split at hz
      · rename_i m hf
        have hle := hfile home m hu hf
        right
        simp only [F64.le, Bool.or_eq_true] at hle
        rcases hle with hlt | heq
        · simpa using hlt
        · exfalso
          apply hz
          revert heq
          cases primaryScale m <;> simp [F64.eq, F64.zero, eq_comm]
      · exact absurd (by simp [F64.eq, F64.zero]) hz

theorem getCinnamon_eq (h : Host) (home : String) (hu : h.userCurrent = some home) :
    getCinnamonPrimaryMonitorScale h =
      if F64.eq (scaleBeforeFallback (h.configFile home)) F64.zero = true then cinnamonScale h
      else .ok (scaleBeforeFallback (h.configFile home)) := by
  unfold getCinnamonPrimaryMonitorScale
  simp only [hu]
  cases h.configFile home with
  | openFailed => rfl
  | readFailed => rfl
  | read m ok => cases ok <;> rfl

theorem probeReturns_of_ok (bits : Nat) (r : CmdOutput) (v : F64) (hv : probe bits r = .ok v) :
    probeReturns r = true := by
  obtain ⟨out, err⟩ := r
  cases err with
  | some e =>
    cases e with
    | errNotFound => rfl
    | exitError c => rfl
    | execError n e => simp [probe] at hv
    | other m => simp [probe] at hv
  | none =>
    simp only [probe] at hv
    simp only [probeReturns]
    cases hm : gsettingsRe_FindStringSubmatch out with
    | nil => simp [hm, index] at hv
    | cons a l => rfl

theorem user_Current_again (st : ProcState) (lookup lookup2 : Option String) :
    user_Current (user_Current st lookup).2 lookup2 = user_Current st lookup := by
  unfold user_Current
  cases hc : st.userCache with
  | none => rfl
  | some u => simp [hc]

theorem user_Current_state (st : ProcState) (lookup : Option String) :
    (user_Current st lookup).2 = st ∨
      (st.userCache = none ∧ (user_Current st lookup).2 = { userCache := some lookup }) := by
  unfold user_Current
  cases hc : st.userCache with
  | none => exact Or.inr ⟨rfl, rfl⟩
  | some u => exact Or.inl rfl

theorem implS_of_not_cinnamon (st : ProcState) (h : Host) (x y : Int)
    (hd : currentDesktop h ≠ .ok desktopCinnamon) :
    implS st h x y = (impl h x y, st) := by
  unfold implS impl
  cases hc : currentDesktop h with
  | panic p => rfl
  | ok d =>
    cases d with
    | desktopCinnamon => exact absurd hc hd
    | desktopGnome => simp only; cases gnomeScale h <;> rfl
    | desktopUnknown => rfl
    | desktopUnity => rfl
    | desktopKDE => rfl
    | desktopXfce => rfl

theorem implS_of_cinnamon (st : ProcState) (h : Host) (x y : Int)
    (hd : currentDesktop h = .ok desktopCinnamon) :
    implS st h x y =
      (impl { h with userCurrent := (user_Current st h.userCurrent).1 } x y,
        (user_Current st h.userCurrent).2) := by
  have hd1 : currentDesktop { h with userCurrent := (user_Current st h.userCurrent).1 }
      = .ok desktopCinnamon := hd
  unfold implS impl
  simp only [hd, hd1, getCinnamonPrimaryMonitorScaleS]
  cases getCinnamonPrimaryMonitorScale
    { h with userCurrent := (user_Current st h.userCurrent).1 } <;> rfl

theorem implS_fresh (h : Host) (x y : Int) :
    (implS { userCache := none } h x y).1 = impl h x y := by
  by_cases hd : currentDesktop h = .ok desktopCinnamon
  · rw [implS_of_cinnamon _ h x y hd]
    rfl
  · rw [implS_of_not_cinnamon _ h x y hd]

theorem impl_congr (h1 h2 : Host) (x y x2 y2 : Int)
    (henv : h1.getenv "XDG_CURRENT_DESKTOP" = h2.getenv "XDG_CURRENT_DESKTOP")
    (hg : h1.gnomeQuery = h2.gnomeQuery) (hc : h1.cinnamonQuery = h2.cinnamonQuery)
    (hu : h1.userCurrent = h2.userCurrent)
    (hf : ∀ home, h1.userCurrent = some home → h1.configFile home = h2.configFile home)
    (hw : h1.wordSize64 = h2.wordSize64) :
    impl h1 x y = impl h2 x2 y2 := by
  have hgs : gnomeScale h1 = gnomeScale h2 := by
    rw [gnomeScale_eq_probe, gnomeScale_eq_probe, hg, Host.intSize_congr h1 h2 hw]
  unfold impl
  rw [currentDesktop_congr h1 h2 henv, hgs, getCinnamon_congr h1 h2 hc hu hf hw]

/-! ## Remarks on the states the totality property leaves out -/

/-- On Cinnamon, a monitors file whose base scale decodes to NaN makes `impl`
return NaN: NaN is neither `== 0` nor `<= 0`. -/
theorem impl_nan_base_scale :
    impl (mkHost "X-Cinnamon" ⟨"uint32 1\n", none⟩
      (ConfigFile.read ⟨"1", ⟨F64.nan, []⟩⟩ true)) 0 0 = .ok F64.nan := by
  decide

/-- On Cinnamon, a failed user lookup makes `impl` panic: the error of
`user.Current()` is dropped and the nil `*User` is dereferenced. -/
theorem impl_nil_user (h : Host) (x y : Int) (hd : currentDesktop h = .ok desktopCinnamon)
    (hu : h.userCurrent = none) : impl h x y = .panic Panic.nilDereference := by
  rw [impl_eq h x y _ hd]
  simp [getCinnamonPrimaryMonitorScale, hu]

/-- The hypotheses under which `impl` is shown to return a value above zero
are necessary: they hold on every host where it does. -/
theorem impl_pos_only_if (h : Host) (x y : Int)
    (hpos : ∃ v, impl h x y = .ok v ∧ F64.lt F64.zero v = true) :
    (currentDesktop h = .ok desktopGnome → probeReturns h.gnomeQuery = true) ∧
    (currentDesktop h = .ok desktopCinnamon →
      ∃ home, h.userCurrent = some home ∧
        scaleBeforeFallback (h.configFile home) ≠ F64.nan ∧
        (F64.eq (scaleBeforeFallback (h.configFile home)) F64.zero = true →
          probeReturns h.cinnamonQuery = true)) := by
  obtain ⟨v, hv, hlt⟩ := hpos
  constructor
  · intro hd
    rw [impl_eq h x y _ hd] at hv
    simp only at hv
    cases hg : gnomeScale h with
    | panic p => rw [hg] at hv; cases hv
    | ok s =>
      rw [gnomeScale_eq_probe] at hg
      exact probeReturns_of_ok _ _ _ hg
  · intro hd
    cases hu : h.userCurrent with
    | none =>
      rw [impl_nil_user h x y hd hu] at hv
      cases hv
    | some home =>
      rw [impl_eq h x y _ hd] at hv
      simp only at hv
      rw [getCinnamon_eq h home hu] at hv
      refine ⟨home, rfl, ?_, ?_⟩
      · intro hnan
        rw [hnan] at hv
        simp only [F64.eq, F64.zero, F64.le, F64.lt, Bool.false_eq_true, if_false,
          Bool.or_self] at hv
        cases hv
        cases hlt
      · intro hz
        rw [if_pos hz] at hv
        cases hc : cinnamonScale h with
        | panic p => rw [hc] at hv; cases hv
        | ok s =>
          rw [cinnamonScale_eq_probe] at hc
          exact probeReturns_of_ok _ _ _ hc

/-! ## The claims -/

/-- C1 (counterexample). On a GNOME desktop where starting gsettings fails
with an error that is neither the bare `exec.ErrNotFound` nor an
`*exec.ExitError`, `impl` panics with that error through `panic(err)`: it
returns no value, in particular none above zero. -/
theorem impl_panics_on_start_failure :
    impl (mkHost "GNOME" ⟨"", some startFailure⟩ ConfigFile.openFailed) 0 0
      = .panic (Panic.error startFailure) ∧
    ¬ ∃ v, impl (mkHost "GNOME" ⟨"", some startFailure⟩ ConfigFile.openFailed) 0 0 = .ok v ∧
      F64.lt F64.zero v = true := by
  have e : impl (mkHost "GNOME" ⟨"", some startFailure⟩ ConfigFile.openFailed) 0 0
      = .panic (Panic.error startFailure) := by
    decide
  refine ⟨e, ?_⟩
  rintro ⟨v, hv, _⟩
  rw [e] at hv
  cases hv

/-- C1 (as amended). Whenever the probe that `impl` consults returns, `impl`
returns a value strictly above zero and does not panic, for every `x` and
`y`. On GNOME the probe returns when the gsettings query succeeds with output
the pattern accepts, or fails with the bare `exec.ErrNotFound` or an
`*exec.ExitError`. On Cinnamon it returns when the user lookup succeeds, the
scale resolved from the user's monitors file is not NaN and, in case that
scale is zero (also for a file that is absent, unreadable or not decoded),
the Cinnamon gsettings query is one of those just listed. On the other
desktops nothing is asked. -/
theorem impl_pos_of_absorbed (h : Host) (x y : Int)
    (hg : currentDesktop h = .ok desktopGnome → probeReturns h.gnomeQuery = true)
    (hc : currentDesktop h = .ok desktopCinnamon →
      ∃ home, h.userCurrent = some home ∧
        scaleBeforeFallback (h.configFile home) ≠ F64.nan ∧
        (F64.eq (scaleBeforeFallback (h.configFile home)) F64.zero = true →
          probeReturns h.cinnamonQuery = true)) :
    ∃ v, impl h x y = .ok v ∧ F64.lt F64.zero v = true := by
  obtain ⟨d, hd⟩ : ∃ d, currentDesktop h = .ok d := ⟨_, currentDesktop_eq h⟩
  have hother : impl h x y = .ok F64.one →
      ∃ v, impl h x y = .ok v ∧ F64.lt F64.zero v = true := fun e =>
    ⟨F64.one, e, by simp [F64.lt, F64.zero, F64.one]⟩
  cases d with
  | desktopUnknown => exact hother (impl_other h x y (by simp [hd]))
  | desktopUnity => exact hother (impl_other h x y (by simp [hd]))
  | desktopKDE => exact hother (impl_other h x y (by simp [hd]))
  | desktopXfce => exact hother (impl_other h x y (by simp [hd]))
  | desktopGnome =>
    obtain ⟨v, hv⟩ := probe_returns h.intSize h.gnomeQuery (hg hd)
    rw [← gnomeScale_eq_probe] at hv
    rw [impl_eq h x y _ hd]
    simp only [hv]
    rw [normalise_code v (gnomeScale_ne_nan h v hv)]
    exact normalise_pos v
  | desktopCinnamon =>
    obtain ⟨home, hu, hnan, hq⟩ := hc hd
    rw [impl_eq h x y _ hd]
    simp only
    rw [getCinnamon_eq h home hu]
    split_ifs with hz
    · obtain ⟨v, hv⟩ := probe_returns h.intSize h.cinnamonQuery (hq hz)
      rw [← cinnamonScale_eq_probe] at hv
      simp only [hv]
      rw [normalise_code v (cinnamonScale_ne_nan h v hv)]
      exact normalise_pos v
    · simp only
      rw [normalise_code _ hnan]
      exact normalise_pos _

/-- C1 (witness). A Cinnamon host whose monitors file resolves to 2.0 and whose
gsettings would make the probe panic: the probe is not consulted, the
hypotheses hold and `impl` returns a value above zero. -/
theorem impl_pos_of_absorbed_witness :
    probeReturns (mkHost "X-Cinnamon" ⟨"garbage", none⟩
      (ConfigFile.read ⟨"1", ⟨F64.fin 2, []⟩⟩ true)).cinnamonQuery = false ∧
    ∃ v, impl (mkHost "X-Cinnamon" ⟨"garbage", none⟩
      (ConfigFile.read ⟨"1", ⟨F64.fin 2, []⟩⟩ true)) 0 0 = .ok v ∧ F64.lt F64.zero v = true :=
  ⟨by decide,
   impl_pos_of_absorbed
    (mkHost "X-Cinnamon" ⟨"garbage", none⟩ (ConfigFile.read ⟨"1", ⟨F64.fin 2, []⟩⟩ true)) 0 0
    (fun hd => absurd hd (by decide))
    (fun _ => ⟨"/home/u", rfl, by decide, fun hz => absurd hz (by decide)⟩)⟩

/-- C2. The primary-scale resolution of `getCinnamonPrimaryMonitorScale`
(before its fallback) is the specification's: the first primary output
decides, with its scale when non-zero and the base scale otherwise, and the
base scale is the result when no output is primary. The result is already
determined by the outputs up to the first primary one: after any run of
non-primary outputs and a primary output, what follows does not matter. The
two sample configurations give 3.0 and 2.0. -/
theorem primaryScale_resolution (m : cinnamonMonitorsConfig) :
    primaryScale m = specPrimaryScale m.Configuration.BaseScale m.Configuration.Output ∧
    primaryScale m
      = primaryLoop m.Configuration.BaseScale (throughFirstPrimary m.Configuration.Output) ∧
    (∀ (pre : List Output) (s : F64) (later later1 : List Output),
      primaryLoop m.Configuration.BaseScale
          (pre.filter (fun o => !o.Primary) ++ ⟨s, true⟩ :: later)
        = primaryLoop m.Configuration.BaseScale
          (pre.filter (fun o => !o.Primary) ++ ⟨s, true⟩ :: later1)) ∧
    primaryScale ⟨m.Version, ⟨F64.fin 2, [⟨F64.fin 0, false⟩, ⟨F64.fin 3, true⟩]⟩⟩ = F64.fin 3 ∧
    (∀ later : List Output,
      primaryScale ⟨m.Version, ⟨F64.fin 2, ⟨F64.fin 0, true⟩ :: later⟩⟩ = F64.fin 2) := by
  refine ⟨primaryLoop_eq_spec _ _, (primaryLoop_through _ _).symm, ?_,
    by simp [primaryScale, primaryLoop, F64.ne, F64.eq, F64.zero], ?_⟩
  · intro pre s later later1
    have hpre : ∀ o ∈ pre.filter (fun o => !o.Primary), o.Primary = false := by
      intro o ho
      simpa using (List.mem_filter.mp ho).2
    rw [primaryLoop_skip _ _ _ hpre, primaryLoop_skip _ _ _ hpre]
    simp [primaryLoop]
  · intro later
    simp [primaryScale, primaryLoop, F64.ne, F64.eq, F64.zero]

/-- C3 (the code at the failing input). When gsettings exits successfully and
its output does not match the pattern (`garbage`, or nothing at all),
`FindStringSubmatch` returns the nil slice and `m[1]` panics with an index out
of range, in `gnomeScale` and in `cinnamonScale` alike. -/
theorem probe_panics_on_mismatch (h : Host) :
    gnomeScale { h with commandOutput := fun _ _ => ⟨"garbage", none⟩ }
      = .panic Panic.indexOutOfRange ∧
    cinnamonScale { h with commandOutput := fun _ _ => ⟨"garbage", none⟩ }
      = .panic Panic.indexOutOfRange ∧
    gnomeScale { h with commandOutput := fun _ _ => ⟨"", none⟩ }
      = .panic Panic.indexOutOfRange ∧
    cinnamonScale { h with commandOutput := fun _ _ => ⟨"", none⟩ }
      = .panic Panic.indexOutOfRange := by
  refine ⟨?_, ?_, ?_, ?_⟩ <;>
    first
      | (rw [gnomeScale_eq_probe]; exact probe_of_not_matches _ _ (by
          rw [← find_eq_nil_iff]; decide))
      | (rw [cinnamonScale_eq_probe]; exact probe_of_not_matches _ _ (by
          rw [← find_eq_nil_iff]; decide))

/-- C4 (the code at the failing input). When the process invocation reports
the missing binary as an `*exec.Error` wrapping `exec.ErrNotFound`, the
comparison `err == exec.ErrNotFound` is false and both probes reach
`panic(err)`; the bare sentinel alone gives the no-signal value 0. -/
theorem probe_panics_on_wrapped_not_found (h : Host) :
    gnomeScale { h with commandOutput := fun _ _ =>
        ⟨"", some (GoError.execError "gsettings" GoError.errNotFound)⟩ }
      = .panic (Panic.error (GoError.execError "gsettings" GoError.errNotFound)) ∧
    cinnamonScale { h with commandOutput := fun _ _ =>
        ⟨"", some (GoError.execError "gsettings" GoError.errNotFound)⟩ }
      = .panic (Panic.error (GoError.execError "gsettings" GoError.errNotFound)) ∧
    gnomeScale { h with commandOutput := fun _ _ => ⟨"", some GoError.errNotFound⟩ }
      = .ok F64.zero ∧
    cinnamonScale { h with commandOutput := fun _ _ => ⟨"", some GoError.errNotFound⟩ }
      = .ok F64.zero := by
  refine ⟨?_, ?_, ?_, ?_⟩ <;> rfl

/-- C5. For every value of `XDG_CURRENT_DESKTOP`, `currentDesktop` returns
(the index of the last token is in range), and what it returns is read off
the fixed table at the last colon-separated token; that token has no colon
and is the whole value or what follows its last colon. -/
theorem currentDesktop_table (h : Host) :
    currentDesktop h = .ok
      (if lastToken (h.getenv "XDG_CURRENT_DESKTOP") = "GNOME" then desktopGnome
       else if lastToken (h.getenv "XDG_CURRENT_DESKTOP") = "X-Cinnamon" then desktopCinnamon
       else if lastToken (h.getenv "XDG_CURRENT_DESKTOP") = "Unity" then desktopUnity
       else if lastToken (h.getenv "XDG_CURRENT_DESKTOP") = "KDE" then desktopKDE
       else if lastToken (h.getenv "XDG_CURRENT_DESKTOP") = "XFCE" then desktopXfce
       else desktopUnknown) ∧
    ':' ∉ (lastToken (h.getenv "XDG_CURRENT_DESKTOP")).data ∧
    (h.getenv "XDG_CURRENT_DESKTOP" = lastToken (h.getenv "XDG_CURRENT_DESKTOP") ∨
      ∃ pre : String, h.getenv "XDG_CURRENT_DESKTOP"
        = pre ++ ":" ++ lastToken (h.getenv "XDG_CURRENT_DESKTOP")) :=
  ⟨currentDesktop_eq h, lastToken_spec _⟩

/-- C6 (counterexample). On a Cinnamon desktop whose monitors file does not
decode, or cannot be opened, and where starting gsettings fails, `impl` panics
with that error through `panic(err)`: it returns neither the value of the
query nor 1.0. -/
theorem impl_cinnamon_fallback_panics :
    impl (mkHost "X-Cinnamon" ⟨"", some startFailure⟩
      (ConfigFile.read ⟨"1", ⟨F64.fin 2, []⟩⟩ false)) 0 0
      = .panic (Panic.error startFailure) ∧
    impl (mkHost "X-Cinnamon" ⟨"", some startFailure⟩ ConfigFile.openFailed) 0 0
      = .panic (Panic.error startFailure) ∧
    ¬ ∃ v, impl (mkHost "X-Cinnamon" ⟨"", some startFailure⟩
      (ConfigFile.read ⟨"1", ⟨F64.fin 2, []⟩⟩ false)) 0 0 = .ok v := by
  have e : impl (mkHost "X-Cinnamon" ⟨"", some startFailure⟩
      (ConfigFile.read ⟨"1", ⟨F64.fin 2, []⟩⟩ false)) 0 0
      = .panic (Panic.error startFailure) := by
    decide
  refine ⟨e, by decide, ?_⟩
  rintro ⟨v, hv⟩
  rw [e] at hv
  cases hv

/-- C6 (as amended). On a Cinnamon desktop where the user lookup succeeds:
when the monitors file is read and decoded and its primary-scale resolution
`r` is non-zero, gsettings is not consulted (the outcome of `impl` is the same
whatever gsettings would answer) and `impl` returns `r` when `r` is above
zero; when the file cannot be opened or read, does not decode, or resolves to
zero, and the Cinnamon gsettings query returns (it succeeds with output the
pattern accepts, or fails with the bare `exec.ErrNotFound` or an
`*exec.ExitError`), `impl` returns the value of the query when that is above
zero and 1.0 otherwise. A file that does not decode is treated as a file that
cannot be opened: it adds no panic and nothing of its partially decoded
content reaches the outcome. -/
theorem impl_cinnamon (h : Host) (x y : Int) (home : String)
    (hd : currentDesktop h = .ok desktopCinnamon) (hu : h.userCurrent = some home) :
    (∀ m, h.configFile home = .read m true → F64.ne (primaryScale m) F64.zero = true →
      (∀ cmd, impl { h with commandOutput := cmd } x y = impl h x y) ∧
      (F64.lt F64.zero (primaryScale m) = true → impl h x y = .ok (primaryScale m))) ∧
    ((h.configFile home = .openFailed ∨ h.configFile home = .readFailed ∨
        (∃ m, h.configFile home = .read m false) ∨
        (∃ m, h.configFile home = .read m true ∧ F64.eq (primaryScale m) F64.zero = true)) →
      probeReturns h.cinnamonQuery = true →
      ∃ v, cinnamonScale h = .ok v ∧
        impl h x y = .ok (if F64.lt F64.zero v = true then v else F64.one)) ∧
    (∀ m, h.configFile home = .read m false →
      impl h x y = impl { h with configFile := fun _ => ConfigFile.openFailed } x y) := by
  have hfall : (h.configFile home = .openFailed ∨ h.configFile home = .readFailed ∨
        (∃ m, h.configFile home = .read m false) ∨
        (∃ m, h.configFile home = .read m true ∧ F64.eq (primaryScale m) F64.zero = true)) →
      impl h x y = normalise (cinnamonScale h) := by
    intro hf
    rw [impl_eq h x y _ hd]
    simp only
    rw [getCinnamon_fallback h home hu hf]
    cases hc : cinnamonScale h with
    | panic p => rfl
    | ok s => exact normalise_code s (cinnamonScale_ne_nan h s hc)
  refine ⟨?_, ?_, ?_⟩
  · intro m hf hne
    have hfile : ∀ cmd, impl { h with commandOutput := cmd } x y
        = if F64.le (primaryScale m) F64.zero = true then .ok F64.one
          else .ok (primaryScale m) := by
      intro cmd
      have hd1 : currentDesktop { h with commandOutput := cmd } = .ok desktopCinnamon := hd
      rw [impl_eq _ x y _ hd1]
      simp only
      rw [getCinnamon_file { h with commandOutput := cmd } home m hu hf hne]
    constructor
    · intro cmd
      rw [hfile cmd, ← hfile h.commandOutput]
    · intro hpos
      have hnan : primaryScale m ≠ F64.nan := by
        intro e; rw [e] at hpos; cases hpos
      have := hfile h.commandOutput
      rw [normalise_code _ hnan] at this
      rw [show impl h x y = impl { h with commandOutput := h.commandOutput } x y from rfl, this]
      simp [normalise, hpos]
  · intro hf hq
    obtain ⟨v, hv⟩ := probe_returns h.intSize h.cinnamonQuery hq
    rw [← cinnamonScale_eq_probe] at hv
    refine ⟨v, hv, ?_⟩
    rw [hfall hf, hv]
    rfl
  · intro m hf
    rw [hfall (Or.inr (Or.inr (Or.inl ⟨m, hf⟩)))]
    have hd2 : currentDesktop { h with configFile := fun _ => ConfigFile.openFailed }
        = .ok desktopCinnamon := hd
    rw [impl_eq _ x y _ hd2]
    simp only
    rw [getCinnamon_fallback { h with configFile := fun _ => ConfigFile.openFailed } home hu
      (Or.inl rfl)]
    have hcs : cinnamonScale { h with configFile := fun _ => ConfigFile.openFailed }
        = cinnamonScale h := rfl
    rw [hcs]
    cases hc : cinnamonScale h with
    | panic p => rfl
    | ok s => exact (normalise_code s (cinnamonScale_ne_nan h s hc)).symm

/-- C6 (witness). On a Cinnamon host whose monitors file decodes to base scale
2.0 with no output, `impl` returns 2.0 although gsettings is not installed. -/
theorem impl_cinnamon_witness :
    currentDesktop (mkHost "X-Cinnamon" ⟨"", some GoError.errNotFound⟩
      (ConfigFile.read ⟨"1", ⟨F64.fin 2, []⟩⟩ true)) = .ok desktopCinnamon ∧
    impl (mkHost "X-Cinnamon" ⟨"", some GoError.errNotFound⟩
      (ConfigFile.read ⟨"1", ⟨F64.fin 2, []⟩⟩ true)) 0 0 = .ok (F64.fin 2) :=
  ⟨by decide,
   ((impl_cinnamon (mkHost "X-Cinnamon" ⟨"", some GoError.errNotFound⟩
      (ConfigFile.read ⟨"1", ⟨F64.fin 2, []⟩⟩ true)) 0 0 "/home/u" (by decide) rfl).1
      ⟨"1", ⟨F64.fin 2, []⟩⟩ rfl (by decide)).2 (by decide)⟩

/-- C7. When the classified desktop is Unity, KDE, Xfce or unknown, `impl`
returns exactly 1.0 for every `x` and `y`, whatever the state of gsettings, of
the user lookup and of the Cinnamon monitors file. -/
theorem impl_unprobed_desktop (h : Host) (x y : Int)
    (hd : currentDesktop h = .ok desktopUnity ∨ currentDesktop h = .ok desktopKDE ∨
      currentDesktop h = .ok desktopXfce ∨ currentDesktop h = .ok desktopUnknown) :
    impl h x y = .ok F64.one :=
  impl_other h x y hd

/-- C7 (witness). On a Unity host whose gsettings would make a probe panic and
whose monitors file would give 3.0, `impl` returns 1.0. -/
theorem impl_unprobed_desktop_witness :
    currentDesktop (mkHost "ubuntu:Unity" ⟨"garbage", none⟩
      (ConfigFile.read ⟨"1", ⟨F64.fin 3, []⟩⟩ true)) = .ok desktopUnity ∧
    impl (mkHost "ubuntu:Unity" ⟨"garbage", none⟩
      (ConfigFile.read ⟨"1", ⟨F64.fin 3, []⟩⟩ true)) 5 7 = .ok F64.one :=
  ⟨by decide,
   impl_unprobed_desktop (mkHost "ubuntu:Unity" ⟨"garbage", none⟩
      (ConfigFile.read ⟨"1", ⟨F64.fin 3, []⟩⟩ true)) 5 7 (Or.inl (by decide))⟩

/-- C8. On a GNOME desktop, whenever `gnomeScale` yields a value `s`, `impl`
returns `s` when `s` is above zero and 1.0 otherwise. In particular the
no-signal value, a missing binary reported by the bare sentinel, a non-zero
exit and the output `uint32 0` give 1.0, and the output `uint32 2` followed by
a newline gives 2.0. -/
theorem impl_gnome (h : Host) (x y : Int) (hd : currentDesktop h = .ok desktopGnome) :
    (∀ s, gnomeScale h = .ok s →
      impl h x y = .ok (if F64.lt F64.zero s = true then s else F64.one)) ∧
    (gnomeScale h = .ok F64.zero → impl h x y = .ok F64.one) ∧
    (h.gnomeQuery.err = some GoError.errNotFound → impl h x y = .ok F64.one) ∧
    (∀ code, h.gnomeQuery.err = some (GoError.exitError code) → impl h x y = .ok F64.one) ∧
    (h.gnomeQuery = ⟨"uint32 0", none⟩ → impl h x y = .ok F64.one) ∧
    (h.gnomeQuery = ⟨"uint32 2\n", none⟩ → impl h x y = .ok (F64.fin 2)) := by
  have main : ∀ s, gnomeScale h = .ok s →
      impl h x y = .ok (if F64.lt F64.zero s = true then s else F64.one) := by
    intro s hs
    rw [impl_gnome_eq h x y hd, hs]
  have hzero : gnomeScale h = .ok F64.zero → impl h x y = .ok F64.one := by
    intro hs
    rw [main _ hs]
    simp [F64.lt, F64.zero]
  refine ⟨main, hzero, ?_, ?_, ?_, ?_⟩
  · intro he
    apply hzero
    rw [gnomeScale_eq_probe]
    simp [probe, he]
  · intro code he
    apply hzero
    rw [gnomeScale_eq_probe]
    simp [probe, he]
  · intro he
    apply hzero
    rw [gnomeScale_eq_probe, he]
    rcases h.intSize_cases with e | e <;> rw [e] <;> decide
  · intro he
    have hs : gnomeScale h = .ok (F64.fin 2) := by
      rw [gnomeScale_eq_probe, he]
      rcases h.intSize_cases with e | e <;> rw [e] <;> decide
    rw [main _ hs]
    simp [F64.lt, F64.zero]

/-- C8 (witness). On a GNOME host whose gsettings prints `uint32 2` and a
newline, `impl` returns 2.0. -/
theorem impl_gnome_witness :
    currentDesktop (mkHost "GNOME" ⟨"uint32 2\n", none⟩ ConfigFile.openFailed)
      = .ok desktopGnome ∧
    impl (mkHost "GNOME" ⟨"uint32 2\n", none⟩ ConfigFile.openFailed) 0 0 = .ok (F64.fin 2) :=
  ⟨by decide,
   (impl_gnome (mkHost "GNOME" ⟨"uint32 2\n", none⟩ ConfigFile.openFailed) 0 0
      (by decide)).2.2.2.2.2 rfl⟩

/-- C9 (counterexample). The decimal rendering of `2^53 + 1`, a number that
fits a 64-bit `int`, makes `gnomeScale` and `cinnamonScale` return `2^53`: the
conversion to `float64` rounds, and the result is not the number itself. -/
theorem scale_rounds_above_2_53 :
    Nat.repr (2 ^ 53 + 1) = "9007199254740993" ∧
    gnomeScale (mkHost "GNOME" ⟨"uint32 9007199254740993", none⟩ ConfigFile.openFailed)
      = .ok (F64.fin 9007199254740992) ∧
    cinnamonScale (mkHost "X-Cinnamon" ⟨"uint32 9007199254740993", none⟩ ConfigFile.openFailed)
      = .ok (F64.fin 9007199254740992) ∧
    gnomeScale (mkHost "GNOME" ⟨"uint32 9007199254740993", none⟩ ConfigFile.openFailed)
      ≠ .ok (F64.fin 9007199254740993) := by
  decide

/-- C9 (as amended). For every natural number `n` that fits a Go `int` and
every string `w` of whitespace, the successful output `uint32 `, the decimal
rendering of `n`, then `w`, makes `gnomeScale` and `cinnamonScale` return
`float64(n)`, which is `n` itself below `2^53`. -/
theorem scale_of_decimal (h : Host) (n : Nat) (w : String)
    (hn : n < 2 ^ (h.intSize - 1)) (hw : ∀ c ∈ w.data, isSpace c = true) :
    (h.gnomeQuery = ⟨"uint32 " ++ Nat.repr n ++ w, none⟩ →
      gnomeScale h = .ok (F64.ofInt (n : Int))) ∧
    (h.cinnamonQuery = ⟨"uint32 " ++ Nat.repr n ++ w, none⟩ →
      cinnamonScale h = .ok (F64.ofInt (n : Int))) ∧
    (n < 2 ^ 53 → F64.ofInt (n : Int) = F64.fin (n : ℚ)) := by
  obtain ⟨hne, hd, hv⟩ := repr_spec n
  have hp := probe_digits h.intSize (Nat.repr n) w hne hd hw (by rw [hv]; exact hn)
  rw [hv] at hp
  refine ⟨?_, ?_, F64.ofInt_of_lt n⟩
  · intro he
    rw [gnomeScale_eq_probe, he]
    exact hp
  · intro he
    rw [cinnamonScale_eq_probe, he]
    exact hp

/-- C9 (witness). The output `uint32 2` followed by a newline gives 2.0. -/
theorem scale_of_decimal_witness :
    gnomeScale (mkHost "GNOME" ⟨"uint32 2\n", none⟩ ConfigFile.openFailed)
      = .ok (F64.ofInt 2) ∧
    F64.ofInt 2 = F64.fin 2 :=
  ⟨(scale_of_decimal (mkHost "GNOME" ⟨"uint32 2\n", none⟩ ConfigFile.openFailed) 2 "\n"
      (by decide) (by decide)).1 (by decide),
   (scale_of_decimal (mkHost "GNOME" ⟨"uint32 2\n", none⟩ ConfigFile.openFailed) 2 "\n"
      (by decide) (by decide)).2.2 (by decide)⟩

/-- C10 (counterexample). With a leading space the output ` uint32 2` plus
newline is not accepted: both probes panic with an index out of range instead
of returning 2.0. -/
theorem probe_rejects_leading_space :
    gnomeScale (mkHost "GNOME" ⟨" uint32 2\n", none⟩ ConfigFile.openFailed)
      = .panic Panic.indexOutOfRange ∧
    cinnamonScale (mkHost "X-Cinnamon" ⟨" uint32 2\n", none⟩ ConfigFile.openFailed)
      = .panic Panic.indexOutOfRange ∧
    gnomeScale (mkHost "GNOME" ⟨" uint32 2\n", none⟩ ConfigFile.openFailed)
      ≠ .ok (F64.fin 2) := by
  decide

/-- C10 (as amended). A successful output `uint32 <digits>` is accepted when
whitespace follows it (and nothing precedes it): for every whitespace string
`w`, the output `uint32 ` then the digits then `w`, the digits parsing to a
positive integer `n` that fits a Go `int`, makes both probes return
`float64(n)`, a value above zero. -/
theorem scale_of_digits_then_space (h : Host) (ds w : String) (hne : ds.data ≠ [])
    (hd : ∀ c ∈ ds.data, isDigit c = true) (hw : ∀ c ∈ w.data, isSpace c = true)
    (hpos : 0 < digitsValue ds.data) (hn : digitsValue ds.data < 2 ^ (h.intSize - 1)) :
    (h.gnomeQuery = ⟨"uint32 " ++ ds ++ w, none⟩ →
      gnomeScale h = .ok (F64.ofInt (digitsValue ds.data : Int))) ∧
    (h.cinnamonQuery = ⟨"uint32 " ++ ds ++ w, none⟩ →
      cinnamonScale h = .ok (F64.ofInt (digitsValue ds.data : Int))) ∧
    F64.lt F64.zero (F64.ofInt (digitsValue ds.data : Int)) = true := by
  have hp := probe_digits h.intSize ds w hne hd hw hn
  refine ⟨?_, ?_, F64.ofInt_pos _ hpos⟩
  · intro he
    rw [gnomeScale_eq_probe, he]
    exact hp
  · intro he
    rw [cinnamonScale_eq_probe, he]
    exact hp

/-- C10 (witness). The output `uint32 007` followed by a space and a newline
makes the Cinnamon probe return 7.0. -/
theorem scale_of_digits_then_space_witness :
    digitsValue "007".data = 7 ∧
    cinnamonScale (mkHost "X-Cinnamon" ⟨"uint32 007 \n", none⟩ ConfigFile.openFailed)
      = .ok (F64.ofInt 7) :=
  ⟨by decide,
   (scale_of_digits_then_space
      (mkHost "X-Cinnamon" ⟨"uint32 007 \n", none⟩ ConfigFile.openFailed) "007" " \n"
      (by decide) (by decide) (by decide) (by decide) (by decide)).2.1 (by decide)⟩

/-- C11. When the gsettings process runs and exits with a non-zero status (an
`*exec.ExitError`), `gnomeScale` and `cinnamonScale` return the no-signal
value 0 and do not panic, whatever the exit code and whatever the process
wrote to its standard output. -/
theorem probe_exit_error (h : Host) (out : String) (code : Nat) :
    gnomeScale { h with commandOutput := fun _ _ => ⟨out, some (GoError.exitError code)⟩ }
      = .ok F64.zero ∧
    cinnamonScale { h with commandOutput := fun _ _ => ⟨out, some (GoError.exitError code)⟩ }
      = .ok F64.zero :=
  ⟨rfl, rfl⟩

/-- C12. The flexible boolean of the `primary` field is true exactly when the
element text is `yes`, `true` or `on`, compared as it stands; in particular it
is false for the empty text, `1`, `True`, `no` and ` yes`. -/
theorem XmlBool_true_iff (s : String) :
    (XmlBool_UnmarshalXML s = true ↔ s = "yes" ∨ s = "true" ∨ s = "on") ∧
    XmlBool_UnmarshalXML "" = false ∧ XmlBool_UnmarshalXML "1" = false ∧
    XmlBool_UnmarshalXML "True" = false ∧ XmlBool_UnmarshalXML "no" = false ∧
    XmlBool_UnmarshalXML " yes" = false := by
  refine ⟨?_, by decide, by decide, by decide, by decide, by decide⟩
  simp [XmlBool_UnmarshalXML, or_assoc]

/-- C13 (counterexample). A monitors file whose base scale decodes to -2.0
makes `getCinnamonPrimaryMonitorScale` return -2.0, a negative signal, and so
does a primary output of scale -2.0 over a base scale of 1.0. -/
theorem getCinnamon_negative :
    getCinnamonPrimaryMonitorScale (mkHost "X-Cinnamon" ⟨"uint32 1\n", none⟩
      (ConfigFile.read ⟨"1", ⟨F64.fin (-2), []⟩⟩ true)) = .ok (F64.fin (-2)) ∧
    getCinnamonPrimaryMonitorScale (mkHost "X-Cinnamon" ⟨"uint32 1\n", none⟩
      (ConfigFile.read ⟨"1", ⟨F64.fin 1, [⟨F64.fin (-2), true⟩]⟩⟩ true)) = .ok (F64.fin (-2)) ∧
    F64.lt (F64.fin (-2)) F64.zero = true ∧
    ¬ (F64.fin (-2) = F64.zero ∨ F64.lt F64.zero (F64.fin (-2)) = true) := by
  decide

/-- C13 (as amended). Whenever they return, `gnomeScale` and `cinnamonScale`
give 0 or a value above zero; so does `getCinnamonPrimaryMonitorScale` on
every host whose decoded monitors file resolves to a primary scale that is 0
or above. -/
theorem probes_zero_or_pos (h : Host)
    (hfile : ∀ home m, h.userCurrent = some home → h.configFile home = .read m true →
      F64.le F64.zero (primaryScale m) = true) :
    (∀ v, gnomeScale h = .ok v → v = F64.zero ∨ F64.lt F64.zero v = true) ∧
    (∀ v, cinnamonScale h = .ok v → v = F64.zero ∨ F64.lt F64.zero v = true) ∧
    (∀ v, getCinnamonPrimaryMonitorScale h = .ok v →
      v = F64.zero ∨ F64.lt F64.zero v = true) := by
  refine ⟨?_, ?_, ?_⟩
  · intro v hv
    rw [gnomeScale_eq_probe] at hv
    exact probe_zero_or_pos _ _ _ hv
  · intro v hv
    rw [cinnamonScale_eq_probe] at hv
    exact probe_zero_or_pos _ _ _ hv
  · intro v hv
    exact getCinnamon_zero_or_pos h v hfile hv

/-- C13 (witness). On a Cinnamon host whose monitors file resolves to 3.0 the
hypothesis holds and the probe returns 3.0, a value above zero. -/
theorem probes_zero_or_pos_witness :
    getCinnamonPrimaryMonitorScale (mkHost "X-Cinnamon" ⟨"garbage", none⟩
      (ConfigFile.read ⟨"1", ⟨F64.fin 3, []⟩⟩ true)) = .ok (F64.fin 3) ∧
    (F64.fin 3 = F64.zero ∨ F64.lt F64.zero (F64.fin 3) = true) :=
  ⟨by decide,
   (probes_zero_or_pos (mkHost "X-Cinnamon" ⟨"garbage", none⟩
      (ConfigFile.read ⟨"1", ⟨F64.fin 3, []⟩⟩ true))
      (fun _ m _ hm => by
        have : m = ⟨"1", ⟨F64.fin 3, []⟩⟩ := by
          simp only [mkHost, ConfigFile.read.injEq] at hm
          exact hm.1.symm
        rw [this]; decide)).2.2 (F64.fin 3) (by decide)⟩

/-- C14. The coordinates are unused: on every host, `impl` has the same
outcome (the same value or the same panic) at any two pairs of coordinates. -/
theorem impl_ignores_coordinates (h : Host) (x1 y1 x2 y2 : Int) :
    impl h x1 y1 = impl h x2 y2 :=
  rfl

/-- C15. Two consecutive calls of `impl` return identical outcomes when the
second finds the same value of `XDG_CURRENT_DESKTOP`, the same outcomes of the
two gsettings queries and the same monitors file as the first, whatever the
coordinates and whatever a user lookup would answer by then. The package
keeps nothing from one call to the next: of the process state a call changes
only the empty cache of the library's user lookup, which it fills, the second
call leaves the state as the first left it, and in a fresh process the outcome
is that of `impl` on the host alone. -/
theorem impl_consecutive (st : ProcState) (h : Host) (x y x2 y2 : Int)
    (getenv2 : String → String) (commandOutput2 : String → List String → CmdOutput)
    (userCurrent2 : Option String) (configFile2 : String → ConfigFile)
    (henv : getenv2 "XDG_CURRENT_DESKTOP" = h.getenv "XDG_CURRENT_DESKTOP")
    (hg : commandOutput2 "gsettings" ["get", "org.gnome.desktop.interface", "scaling-factor"]
      = h.gnomeQuery)
    (hc : commandOutput2 "gsettings" ["get", "org.cinnamon.desktop.interface", "scaling-factor"]
      = h.cinnamonQuery)
    (hf : ∀ home, (user_Current st h.userCurrent).1 = some home →
      configFile2 home = h.configFile home) :
    (implS (implS st h x y).2
        (h.later getenv2 commandOutput2 userCurrent2 configFile2) x2 y2).1
      = (implS st h x y).1 ∧
    (implS (implS st h x y).2
        (h.later getenv2 commandOutput2 userCurrent2 configFile2) x2 y2).2
      = (implS st h x y).2 ∧
    ((implS st h x y).2 = st ∨
      (st.userCache = none ∧ (implS st h x y).2 = { userCache := some h.userCurrent })) ∧
    (implS { userCache := none } h x y).1 = impl h x y := by
  have hd2 : currentDesktop (h.later getenv2 commandOutput2 userCurrent2 configFile2)
      = currentDesktop h :=
    currentDesktop_congr _ _ henv
  by_cases hd : currentDesktop h = .ok desktopCinnamon
  · rw [implS_of_cinnamon st h x y hd, implS_of_cinnamon _ _ x2 y2 (hd2.trans hd)]
    simp only [user_Current_again]
    refine ⟨?_, trivial, user_Current_state st h.userCurrent, implS_fresh h x y⟩
    exact impl_congr _ _ x2 y2 x y henv hg hc rfl
      (fun home hh => hf home hh) rfl
  · rw [implS_of_not_cinnamon st h x y hd,
      implS_of_not_cinnamon _ _ x2 y2 (by rw [hd2]; exact hd)]
    refine ⟨?_, rfl, Or.inl rfl, implS_fresh h x y⟩
    have hne : ∀ u1 u2 : Option String, ∀ f1 f2 : String → ConfigFile,
        impl (h.later getenv2 commandOutput2 u1 f1) x2 y2
          = impl (h.later getenv2 commandOutput2 u2 f2) x2 y2 := by
      intro u1 u2 f1 f2
      have hdd : currentDesktop (h.later getenv2 commandOutput2 u1 f1) = currentDesktop h :=
        currentDesktop_congr _ _ henv
      have hdd2 : currentDesktop (h.later getenv2 commandOutput2 u2 f2) = currentDesktop h :=
        currentDesktop_congr _ _ henv
      unfold impl
      rw [hdd, hdd2]
      cases hcd : currentDesktop h with
      | panic p => rfl
      | ok d =>
        cases d with
        | desktopCinnamon => exact absurd hcd hd
        | desktopGnome => rfl
        | desktopUnknown => rfl
        | desktopUnity => rfl
        | desktopKDE => rfl
        | desktopXfce => rfl
    rw [hne userCurrent2 h.userCurrent configFile2 h.configFile]
    exact impl_congr _ _ x2 y2 x y henv hg hc rfl (fun _ _ => rfl) rfl

/-- C15 (witness). Two calls on a Cinnamon host whose gsettings prints
`uint32 2`: the second call finds another variable set, other files and a
user lookup that would fail, and returns 2.0 as the first did. -/
theorem impl_consecutive_witness :
    (implS { userCache := none }
      (mkHost "X-Cinnamon" ⟨"uint32 2\n", none⟩ ConfigFile.openFailed) 0 0).1
      = .ok (F64.fin 2) ∧
    (implS (implS { userCache := none }
        (mkHost "X-Cinnamon" ⟨"uint32 2\n", none⟩ ConfigFile.openFailed) 0 0).2
      ((mkHost "X-Cinnamon" ⟨"uint32 2\n", none⟩ ConfigFile.openFailed).later
        (fun k => if k = "XDG_CURRENT_DESKTOP" then "X-Cinnamon" else "other")
        (fun _ _ => ⟨"uint32 2\n", none⟩) none
        (fun home =>
          if home = "/home/u" then ConfigFile.openFailed else ConfigFile.readFailed)) 5 7).1
      = (implS { userCache := none }
          (mkHost "X-Cinnamon" ⟨"uint32 2\n", none⟩ ConfigFile.openFailed) 0 0).1 :=
  ⟨by decide,
   (impl_consecutive { userCache := none }
      (mkHost "X-Cinnamon" ⟨"uint32 2\n", none⟩ ConfigFile.openFailed) 0 0 5 7
      (fun k => if k = "XDG_CURRENT_DESKTOP" then "X-Cinnamon" else "other")
      (fun _ _ => ⟨"uint32 2\n", none⟩) none
      (fun home => if home = "/home/u" then ConfigFile.openFailed else ConfigFile.readFailed)
      (by decide) rfl rfl
      (fun home hh => by
        have : home = "/home/u" := by
          simp only [user_Current, mkHost, Option.some.injEq] at hh
          exact hh.symm
        subst this
        decide)).1⟩

/-- C16. When gsettings succeeds with an output the pattern accepts whose
digits are a number beyond the range of a Go `int`, `strconv.Atoi` fails and
`gnomeScale` and `cinnamonScale` return the no-signal value 0 without
panicking; on a GNOME desktop `impl` then returns 1.0. -/
theorem probe_digits_out_of_range (h : Host) (x y : Int) (ds w : String)
    (hne : ds.data ≠ []) (hd : ∀ c ∈ ds.data, isDigit c = true)
    (hw : ∀ c ∈ w.data, isSpace c = true)
    (hbig : 2 ^ (h.intSize - 1) ≤ digitsValue ds.data) :
    (h.gnomeQuery = ⟨"uint32 " ++ ds ++ w, none⟩ → gnomeScale h = .ok F64.zero) ∧
    (h.cinnamonQuery = ⟨"uint32 " ++ ds ++ w, none⟩ → cinnamonScale h = .ok F64.zero) ∧
    (h.gnomeQuery = ⟨"uint32 " ++ ds ++ w, none⟩ → currentDesktop h = .ok desktopGnome →
      impl h x y = .ok F64.one) := by
  have hp := probe_out_of_range h.intSize ds w hne hd hw hbig
  have hg : h.gnomeQuery = ⟨"uint32 " ++ ds ++ w, none⟩ → gnomeScale h = .ok F64.zero := by
    intro he
    rw [gnomeScale_eq_probe, he]
    exact hp
  refine ⟨hg, ?_, ?_⟩
  · intro he
    rw [cinnamonScale_eq_probe, he]
    exact hp
  · intro he hdesk
    rw [impl_gnome_eq h x y hdesk, hg he]
    simp [F64.lt, F64.zero]

/-- C16 (witness). The output `uint32 99999999999999999999999` makes
`gnomeScale` and `cinnamonScale` return 0 and `impl` return 1.0 on GNOME. -/
theorem probe_digits_out_of_range_witness :
    gnomeScale (mkHost "GNOME" ⟨"uint32 99999999999999999999999", none⟩
      ConfigFile.openFailed) = .ok F64.zero ∧
    cinnamonScale (mkHost "GNOME" ⟨"uint32 99999999999999999999999", none⟩
      ConfigFile.openFailed) = .ok F64.zero ∧
    impl (mkHost "GNOME" ⟨"uint32 99999999999999999999999", none⟩
      ConfigFile.openFailed) 0 0 = .ok F64.one :=
  ⟨(probe_digits_out_of_range (mkHost "GNOME" ⟨"uint32 99999999999999999999999", none⟩
      ConfigFile.openFailed) 0 0 "99999999999999999999999" ""
      (by decide) (by decide) (by decide) (by decide)).1 (by decide),
   (probe_digits_out_of_range (mkHost "GNOME" ⟨"uint32 99999999999999999999999", none⟩
      ConfigFile.openFailed) 0 0 "99999999999999999999999" ""
      (by decide) (by decide) (by decide) (by decide)).2.1 (by decide),
   (probe_digits_out_of_range (mkHost "GNOME" ⟨"uint32 99999999999999999999999", none⟩
      ConfigFile.openFailed) 0 0 "99999999999999999999999" ""
      (by decide) (by decide) (by decide) (by decide)).2.2 (by decide) (by decide)⟩

/-- C17. `gnomeScale` and `cinnamonScale` are one function of the outcome of
the gsettings invocation: each is `probe` applied to the outcome of its own
query, so for every outcome (any error, or success with any output) both
return the same value or panic alike; they differ in the schema name only. -/
theorem gnomeScale_cinnamonScale_same (h : Host) :
    gnomeScale h = probe h.intSize h.gnomeQuery ∧
    cinnamonScale h = probe h.intSize h.cinnamonQuery ∧
    (∀ r : CmdOutput,
      gnomeScale { h with commandOutput := fun _ _ => r }
        = cinnamonScale { h with commandOutput := fun _ _ => r }) ∧
    (∀ r : CmdOutput,
      gnomeScale { h with commandOutput := fun _ args =>
          if args = ["get", "org.gnome.desktop.interface", "scaling-factor"] then r
          else ⟨"", some GoError.errNotFound⟩ }
        = cinnamonScale { h with commandOutput := fun _ args =>
          if args = ["get", "org.cinnamon.desktop.interface", "scaling-factor"] then r
          else ⟨"", some GoError.errNotFound⟩ }) :=
  ⟨rfl, rfl, fun _ => rfl, fun _ => rfl⟩

end Devicescale

/-! ## The mascot: lemmas and claim -/

namespace Mascot

theorem update_invariant (m : mascot) (f : Frame) (hdir : m.dir = right ∨ m.dir = left) :
    ∃ m1 e, update m f = Outcome.ok m1 e ∧ m1.y16 ≤ 0 ∧ (m1.dir = right ∨ m1.dir = left) ∧
      (m1.y16 = 0 → m1.vy16 = 0 ∨ m1.vy16 = -240) := by
  have hrl : right ≠ left := by decide
  have hmoved : ∃ x16, (if m.dir = right then some (wrapInt (intBits f.wordSize64) (m.x16 + 64))
      else if m.dir = left then some (wrapInt (intBits f.wordSize64) (m.x16 - 64))
      else none) = some x16 := by
    rcases hdir with hd | hd
    · exact ⟨_, by rw [if_pos hd]⟩
    · have : m.dir ≠ right := by rw [hd]; exact hrl.symm
      exact ⟨_, by rw [if_neg this, if_pos hd]⟩
  obtain ⟨x16, hx⟩ := hmoved
  unfold update
  simp only [hx]
  refine ⟨_, _, rfl, ?_, ?_, ?_⟩
  · simp only
    split_ifs <;> omega
  · simp only
    rcases hdir with hd | hd <;> simp only [hd] <;> split_ifs <;> simp_all
  · simp only
    intro hy
    split_ifs at hy ⊢ <;> omega

theorem run_invariant (frames : List Frame) (m : mascot)
    (hy : m.y16 ≤ 0) (hdir : m.dir = right ∨ m.dir = left)
    (hv : m.y16 = 0 → m.vy16 = 0 ∨ m.vy16 = -240) :
    ∃ m1, run m frames = some m1 ∧ m1.y16 ≤ 0 ∧ (m1.dir = right ∨ m1.dir = left) ∧
      (m1.y16 = 0 → m1.vy16 = 0 ∨ m1.vy16 = -240) := by
  induction frames generalizing m with
  | nil => exact ⟨m, rfl, hy, hdir, hv⟩
  | cons f fs ih =>
    obtain ⟨m1, e, hu, h1, h2, h3⟩ := update_invariant m f hdir
    simp only [run, hu]
    exact ih m1 h1 h2 h3

/-- A run of two frames on a 64-bit host with a 1920 by 1080 screen: the first
frame triggers a jump, the second one lifts the mascot off the ground. -/
theorem run_jump :
    run initial [⟨true, 1920, 1080, 0, 0, false⟩, ⟨true, 1920, 1080, 7, 1, false⟩]
      = some ⟨128, -232, -232, right, 2⟩ := by
  decide

/-- C18. Starting from the zero-valued mascot, every sequence of `update`
calls, whatever the word size, the screen sizes, the random draws and the
skipped drawings, runs without the panic of the `default` branch and ends in a
mascot with `y16 ≤ 0`, with `dir` equal to `right` or `left`, and with `vy16`
equal to 0 or -240 whenever `y16` is 0. -/
theorem mascot_invariant (frames : List Frame) :
    ∃ m, run initial frames = some m ∧ m.y16 ≤ 0 ∧ (m.dir = right ∨ m.dir = left) ∧
      (m.y16 = 0 → m.vy16 = 0 ∨ m.vy16 = -240) :=
  run_invariant frames initial (by decide) (Or.inl rfl) (fun _ => Or.inl rfl)

end Mascot
